import Mathlib

/-!
# BlockDoc core: shallow embedding and verification

This file embeds the BlockDoc core (block construction, document mutation
operations, the HTML/Markdown renderers and the sanitization utilities) in
Lean 4 and proves properties of the embedded definitions.

Modelling conventions for the JavaScript source:

* JS values are modelled by the inductive type `Value`.  The JS value
  `undefined` is modelled as *absence*: a missing object key, or
  `Option.none` where a possibly-undefined value is passed around.
  JS numbers are modelled as rationals; `NaN`, infinities and `-0` are not
  modelled (no claim needs them).  Strict equality `===` is modelled
  structurally; for primitive values (strings, numbers, booleans, null)
  this agrees with JS.
* JS exceptions are modelled with `Except`: an operation that throws
  returns `Except.error e`.  In every mutating document operation of the
  source, each `throw` happens before any mutation of the stored array, so
  the functional embedding in which an error result carries no new state
  is faithful to the in-place code.
* Host-library collaborators (the CommonMark converter `marked`, the
  syntax highlighter `hljs`, `new Date`, and the WHATWG `URL` parser) are
  not part of the repository; the renderer definitions take them as
  function parameters and theorems quantify over them.
-/

namespace BlockDoc

/-- A JavaScript value, as used by the BlockDoc core.  `undefined` is
modelled as absence (a missing key / `Option.none`), not as a `Value`. -/
inductive Value where
  | vStr (s : String)
  | vNum (q : ℚ)
  | vBool (b : Bool)
  | vNull
  | vArr (elems : List Value)
  | vObj (fields : List (String × Value))

mutual

/-- Structural equality test on `Value`, modelling JS `===` on primitive
values.  (JS `===` on two distinct objects/arrays is reference equality;
block ids compared by the document operations are primitives in every
scenario considered here.) -/
def beqValue : Value → Value → Bool
  | .vStr a, .vStr b => a == b
  | .vNum a, .vNum b => a == b
  | .vBool a, .vBool b => a == b
  | .vNull, .vNull => true
  | .vArr xs, .vArr ys => beqValueList xs ys
  | .vObj xs, .vObj ys => beqFieldList xs ys
  | _, _ => false

def beqValueList : List Value → List Value → Bool
  | [], [] => true
  | x :: xs, y :: ys => beqValue x y && beqValueList xs ys
  | _, _ => false

def beqFieldList : List (String × Value) → List (String × Value) → Bool
  | [], [] => true
  | (k, v) :: xs, (k2, v2) :: ys => k == k2 && beqValue v v2 && beqFieldList xs ys
  | _, _ => false

end

mutual

theorem beqValue_iff : ∀ a b : Value, beqValue a b = true ↔ a = b
  | .vStr a, .vStr b => by simp [beqValue]
  | .vNum a, .vNum b => by simp [beqValue]
  | .vBool a, .vBool b => by simp [beqValue]
  | .vNull, .vNull => by simp [beqValue]
  | .vArr xs, .vArr ys => by
      simp only [beqValue, beqValueList_iff xs ys, Value.vArr.injEq]
  | .vObj xs, .vObj ys => by
      simp only [beqValue, beqFieldList_iff xs ys, Value.vObj.injEq]
  | .vStr _, .vNum _ => by simp [beqValue]
  | .vStr _, .vBool _ => by simp [beqValue]
  | .vStr _, .vNull => by simp [beqValue]
  | .vStr _, .vArr _ => by simp [beqValue]
  | .vStr _, .vObj _ => by simp [beqValue]
  | .vNum _, .vStr _ => by simp [beqValue]
  | .vNum _, .vBool _ => by simp [beqValue]
  | .vNum _, .vNull => by simp [beqValue]
  | .vNum _, .vArr _ => by simp [beqValue]
  | .vNum _, .vObj _ => by simp [beqValue]
  | .vBool _, .vStr _ => by simp [beqValue]
  | .vBool _, .vNum _ => by simp [beqValue]
  | .vBool _, .vNull => by simp [beqValue]
  | .vBool _, .vArr _ => by simp [beqValue]
  | .vBool _, .vObj _ => by simp [beqValue]
  | .vNull, .vStr _ => by simp [beqValue]
  | .vNull, .vNum _ => by simp [beqValue]
  | .vNull, .vBool _ => by simp [beqValue]
  | .vNull, .vArr _ => by simp [beqValue]
  | .vNull, .vObj _ => by simp [beqValue]
  | .vArr _, .vStr _ => by simp [beqValue]
  | .vArr _, .vNum _ => by simp [beqValue]
  | .vArr _, .vBool _ => by simp [beqValue]
  | .vArr _, .vNull => by simp [beqValue]
  | .vArr _, .vObj _ => by simp [beqValue]
  | .vObj _, .vStr _ => by simp [beqValue]
  | .vObj _, .vNum _ => by simp [beqValue]
  | .vObj _, .vBool _ => by simp [beqValue]
  | .vObj _, .vNull => by simp [beqValue]
  | .vObj _, .vArr _ => by simp [beqValue]

theorem beqValueList_iff : ∀ xs ys : List Value, beqValueList xs ys = true ↔ xs = ys
  | [], [] => by simp [beqValueList]
  | x :: xs, y :: ys => by
      simp [beqValueList, beqValue_iff x y, beqValueList_iff xs ys]
  | [], _ :: _ => by simp [beqValueList]
  | _ :: _, [] => by simp [beqValueList]

theorem beqFieldList_iff :
    ∀ xs ys : List (String × Value), beqFieldList xs ys = true ↔ xs = ys
  | [], [] => by simp [beqFieldList]
  | (k, v) :: xs, (k2, v2) :: ys => by
      simp [beqFieldList, beqValue_iff v v2, beqFieldList_iff xs ys, and_assoc]
  | [], _ :: _ => by simp [beqFieldList]
  | _ :: _, [] => by simp [beqFieldList]

end

instance : DecidableEq Value := fun a b => decidable_of_iff _ (beqValue_iff a b)

/-- JS truthiness of a defined value. -/
def truthy : Value → Bool
  | .vStr s => s != ""
  | .vNum q => q != 0
  | .vBool b => b
  | .vNull => false
  | .vArr _ => true
  | .vObj _ => true

/-- JS truthiness of a possibly-`undefined` value (`undefined` is falsy). -/
def truthyOpt : Option Value → Bool
  | none => false
  | some v => truthy v

/-- Property lookup on a JS object modelled as an ordered field list;
`none` models `undefined`.  (JS objects have unique keys; the first
matching entry is taken.) -/
def getProp (fields : List (String × Value)) (k : String) : Option Value :=
  match fields.find? (fun p => p.1 == k) with
  | some p => some p.2
  | none => none

/-- Property access `v.k` on a defined value that is not an object:
primitives and arrays yield `undefined` for the properties the BlockDoc
core reads (`id`, `type`, `title`, `blocks`, ...). -/
def jsGet (v : Value) (k : String) : Option Value :=
  match v with
  | .vObj fields => getProp fields k
  | _ => none

/-- JS `===` where either side may be `undefined`. -/
def jsEqOpt : Option Value → Option Value → Bool
  | none, none => true
  | some a, some b => beqValue a b
  | _, _ => false

theorem jsEqOpt_iff (a b : Option Value) : jsEqOpt a b = true ↔ a = b := by
  cases a <;> cases b <;> simp [jsEqOpt, beqValue_iff]

/-- Smallest number of decimal digits after the point needed to write the
rational exactly (searched up to 64, enough for every double). -/
def decExp (q : ℚ) : Option ℕ :=
  (List.range 65).find? (fun k => (q * (10 : ℚ) ^ k).den == 1)

/-- Left-pad a string with zeros to the given length. -/
def leftPadZero (s : String) (n : ℕ) : String :=
  if s.length < n then String.mk (List.replicate (n - s.length) '0') ++ s else s

/-- Decimal notation for a positive rational with a terminating decimal
expansion, as produced by JS `String(number)` for such values. -/
def numToStringPos (q : ℚ) : String :=
  match decExp q with
  | some 0 => toString q.num
  | some (k + 1) =>
      let digits := leftPadZero (toString (q * (10 : ℚ) ^ (k + 1)).num) (k + 2)
      let m := digits.length - (k + 1)
      digits.take m ++ "." ++ digits.drop m
  | none => toString q.num ++ "/" ++ toString q.den

/-- JS `String()` conversion of a number.  Faithful to JS for every value
a double can take with magnitude below `10^21` (beyond that JS switches to
exponent notation, which no claim exercises); rationals without a
terminating decimal expansion cannot arise from doubles and get a
fallback notation. -/
def numToString (q : ℚ) : String :=
  if q = 0 then "0"
  else if q < 0 then "-" ++ numToStringPos (-q)
  else numToStringPos q

mutual

/-- JS `String()` conversion of a defined value (`String(v)`, also the
conversion applied by template literals).  Arrays stringify as their
elements joined with commas, `null` elements contributing the empty
string; objects stringify as `[object Object]`. -/
def jsToString : Value → String
  | .vStr s => s
  | .vNum q => numToString q
  | .vBool b => cond b "true" "false"
  | .vNull => "null"
  | .vObj _ => "[object Object]"
  | .vArr xs => jsArrJoinStr xs

def jsArrJoinStr : List Value → String
  | [] => ""
  | [.vNull] => ""
  | [x] => jsToString x
  | .vNull :: xs => "," ++ jsArrJoinStr xs
  | x :: xs => jsToString x ++ "," ++ jsArrJoinStr xs

end

/-- JS string conversion of a possibly-`undefined` value, as performed by
template literals (`${x}`): `undefined` prints as `"undefined"`. -/
def jsToStringOpt : Option Value → String
  | none => "undefined"
  | some v => jsToString v

/-- JS `Array.prototype.join(sep)`: elements are stringified, with `null`
(and `undefined`, modelled as `vNull`-free absence and not occurring in
stored arrays) contributing the empty string. -/
def jsJoin (sep : String) (xs : List Value) : String :=
  String.intercalate sep
    (xs.map (fun v => match v with | .vNull => "" | v => jsToString v))

/-- Value of a decimal digit character, if it is one. -/
def decDigit? (c : Char) : Option ℕ :=
  if c.isDigit then some (c.toNat - 48) else none

/-- Value of a hexadecimal digit character, if it is one. -/
def hexDigit? (c : Char) : Option ℕ :=
  if c.isDigit then some (c.toNat - 48)
  else if 'a' ≤ c && c ≤ 'f' then some (c.toNat - 87)
  else if 'A' ≤ c && c ≤ 'F' then some (c.toNat - 55)
  else none

/-- Read the longest digit run at the head of the list into a number;
`none` if there is no digit at all (JS `NaN`). -/
def digitRun (base : ℕ) (dv : Char → Option ℕ) : List Char → ℕ → Bool → Option ℕ
  | [], acc, got => if got then some acc else none
  | c :: cs, acc, got =>
      match dv c with
      | some d => digitRun base dv cs (acc * base + d) true
      | none => if got then some acc else none

/-- The host builtin `parseInt(string)` (no radix argument): skip leading
whitespace, take an optional sign, honour a `0x`/`0X` hexadecimal prefix,
then read the longest digit run; `none` models `NaN`. -/
def parseIntStr (s : String) : Option Int :=
  let cs := s.data.dropWhile (fun c => c.isWhitespace)
  let signed : Int × List Char :=
    match cs with
    | '-' :: rest => (-1, rest)
    | '+' :: rest => (1, rest)
    | _ => (1, cs)
  let body : Option ℕ :=
    match signed.2 with
    | '0' :: x :: rest =>
        if x = 'x' || x = 'X' then digitRun 16 hexDigit? rest 0 false
        else digitRun 10 decDigit? signed.2 0 false
    | l => digitRun 10 decDigit? l 0 false
  body.map (fun n => signed.1 * (n : Int))

/-- The host expression `parseInt(v)` on an arbitrary (possibly
`undefined`) value: JS first converts the argument to a string. -/
def jsParseInt (v : Option Value) : Option Int :=
  parseIntStr (jsToStringOpt v)

/-! ## Sanitizer (src/utils/sanitize.js) -/

/-- Replacement applied to one character by the `replace(/[&<>"']/g, ...)`
pass of `sanitizeHtml`: the five HTML-special characters map to their
entities, every other character is kept. -/
def escChar (c : Char) : String :=
  if c = '&' then "&amp;"
  else if c = '<' then "&lt;"
  else if c = '>' then "&gt;"
  else if c = '"' then "&quot;"
  else if c = Char.ofNat 39 then "&#039;"
  else String.singleton c

/-- One simultaneous substitution pass over a character list. -/
def sanitizeChars : List Char → List Char
  | [] => []
  | c :: cs => (escChar c).data ++ sanitizeChars cs

/-- `sanitizeHtml` restricted to string inputs (for a string, the
`String(html)` conversion in the source is the identity; the only falsy
string is `""`). -/
def sanitizeHtml (html : String) : String :=
  if html == "" then "" else String.mk (sanitizeChars html.data)

/-- `sanitizeHtml` on an arbitrary possibly-`undefined` argument, as the
HTML renderer calls it: falsy input yields `""`, otherwise the input is
stringified and escaped. -/
def sanitizeHtmlV (html : Option Value) : String :=
  match html with
  | none => ""
  | some v => if truthy v then String.mk (sanitizeChars (jsToString v).data) else ""

/-- The test `url.match(/^https?:\/\//i)`: the first characters of the
url, lowercased, spell `http://` or `https://`. -/
def matchesHttpCI (url : String) : Bool :=
  (url.data.take 7).map Char.toLower == "http://".data
  || (url.data.take 8).map Char.toLower == "https://".data

/-- The test `url.startsWith("//")`. -/
def startsSlashSlash (url : String) : Bool :=
  match url.data with
  | c :: c2 :: _ => c == '/' && c2 == '/'
  | _ => false

/-- `sanitizeUrl` from src/utils/sanitize.js, restricted to string inputs
(the only falsy string is `""`). -/
def sanitizeUrl (url : String) : String :=
  if url == "" then ""
  else if matchesHttpCI url then url
  else if startsSlashSlash url then "https:" ++ url
  else if !(url.data.contains ':') then url
  else ""

/-! ## Block (core/block.js) -/

/-- Plain block data: a JS object (the `toJSON()` projection stored in
`article.blocks`). -/
abbrev BlockData := List (String × Value)

/-- The eight allowed block types, in source order. -/
def ALLOWED_TYPES : List String :=
  ["text", "heading", "image", "code", "list", "quote", "embed", "divider"]

/-- Type-specific required properties. -/
def TYPE_REQUIREMENTS : String → List String
  | "heading" => ["level"]
  | "code" => ["language"]
  | "image" => ["url", "alt"]
  | "list" => ["items", "listType"]
  | _ => []

/-- The errors thrown by the BlockDoc core (the source throws plain
`Error`s; the constructors here record which `throw` site fired and the
data interpolated into its message).  `hostError` stands for a `TypeError`
raised by the host language (a property access on `null`, or a method
call on a non-string). -/
inductive JsError where
  | missingId
  | invalidType (t : Option Value)
  | missingRequiredField (btype : String) (field : String)
  | duplicateId (id : Option Value)
  | blockNotFound (id : Value)
  | invalidPosition (pos : Int)
  | invalidArticleStructure
  | missingArticle
  | hostError
deriving DecidableEq

/-- The message string of each thrown error, exactly as the source builds
it. -/
def errMessage : JsError → String
  | .missingId => "Block ID is required"
  | .invalidType t =>
      "Invalid block type: " ++ jsToStringOpt t ++ ". Allowed types are: "
        ++ String.intercalate ", " ALLOWED_TYPES
  | .missingRequiredField ty f =>
      "Block of type \"" ++ ty ++ "\" requires property \"" ++ f ++ "\""
  | .duplicateId id => "Block with ID \"" ++ jsToStringOpt id ++ "\" already exists"
  | .blockNotFound id => "Block with ID \"" ++ jsToString id ++ "\" not found"
  | .invalidPosition p => "Invalid position: " ++ toString p
  | .invalidArticleStructure => "Invalid article structure"
  | .missingArticle => "Invalid BlockDoc document: missing article property"
  | .hostError => "TypeError"

deriving instance DecidableEq for Except

/-- The test `ALLOWED_TYPES.includes(data.type)` (array `includes` uses
`===`, so only a string member of the list passes). -/
def isAllowedType : Option Value → Bool
  | some (.vStr s) => ALLOWED_TYPES.contains s
  | _ => false

/-- The string carried by a type value that passed `isAllowedType`. -/
def typeStr : Option Value → String
  | some (.vStr s) => s
  | _ => ""

/-- The loop over `TYPE_REQUIREMENTS[this.type]`: fails on the first
required property that is `undefined` in the data, otherwise collects the
required properties in requirement order. -/
def collectRequired (ty : String) (data : BlockData) : List String → Except JsError BlockData
  | [] => .ok []
  | p :: ps =>
      match getProp data p with
      | none => .error (.missingRequiredField ty p)
      | some v => (collectRequired ty data ps).map (fun rest => (p, v) :: rest)

/-- The `Object.keys(data).forEach` pass copying additional properties:
keys other than `id`/`type`/`content` are appended, each only if not
already set on the block (`this[key] === undefined`). -/
def addExtras : BlockData → BlockData → BlockData
  | built, [] => built
  | built, (k, v) :: rest =>
      if k == "id" || k == "type" || k == "content" then addExtras built rest
      else if (getProp built k).isSome then addExtras built rest
      else addExtras (built ++ [(k, v)]) rest

namespace Block

/-- The `Block` constructor.  For a constructed block, `toJSON()` returns
`{id, type, content}` followed by every other own property in insertion
order, which is exactly the property list the constructor built — so the
embedding returns that plain projection directly.

Non-object `data`: for `null` the access `data.id` throws a `TypeError`;
for any other primitive or an array, `data.id` is `undefined`, so the
constructor throws the missing-id error. -/
def construct (data : Value) : Except JsError BlockData :=
  match data with
  | .vNull => .error .hostError
  | .vObj fields =>
      match getProp fields "id" with
      | none => .error .missingId
      | some idv =>
          if truthy idv = false then .error .missingId
          else
            let t := getProp fields "type"
            if !(truthyOpt t && isAllowedType t) then .error (.invalidType t)
            else
              let ty := typeStr t
              let contentV : Value :=
                match getProp fields "content" with
                | some v => if truthy v then v else .vStr ""
                | none => .vStr ""
              match collectRequired ty fields (TYPE_REQUIREMENTS ty) with
              | .error e => .error e
              | .ok req =>
                  .ok (addExtras ([("id", idv), ("type", .vStr ty), ("content", contentV)] ++ req) fields)
  | _ => .error .missingId

end Block

/-! ## Document (core/document.js) -/

/-- The article owned by a document: `{title, metadata, blocks}`.  A
document constructed without a title has `title = none` (`undefined`). -/
structure Article where
  title : Option Value
  metadata : Value
  blocks : List BlockData
deriving DecidableEq

/-- A BlockDoc document owns exactly one article. -/
structure BlockDocDocument where
  article : Article
deriving DecidableEq

/-- Property access `v.k` where `v` may be `null` (throws `TypeError`). -/
def jsGetE (v : Value) (k : String) : Except JsError (Option Value) :=
  match v with
  | .vNull => .error .hostError
  | .vObj fields => .ok (getProp fields k)
  | _ => .ok none

/-- `x || dflt` for a possibly-`undefined` value. -/
def jsOr (v : Option Value) (dflt : Value) : Value :=
  match v with
  | some x => if truthy x then x else dflt
  | none => dflt

/-- `Array.isArray`. -/
def isArr : Value → Bool
  | .vArr _ => true
  | _ => false

namespace BlockDocDocument

/-- `getBlock(id)`: linear scan of the stored blocks by `block.id === id`
(`none` models the `null` returned when nothing matches). -/
def getBlock (blocks : List BlockData) (id : Option Value) : Option BlockData :=
  blocks.find? (fun b => jsEqOpt (getProp b "id") id)

/-- `blocks.findIndex(block => block.id === id)` (`none` for `-1`). -/
def findIndexById (blocks : List BlockData) (id : Option Value) : Option ℕ :=
  blocks.findIdx? (fun b => jsEqOpt (getProp b "id") id)

/-- `addBlock(blockData)`: duplicate-id check, block construction, then
append of the plain projection.  Both `throw` sites precede the `push`,
so an error result leaves the stored blocks unchanged. -/
def addBlock (d : BlockDocDocument) (blockData : Value) :
    Except JsError (BlockDocDocument × BlockData) := do
  let idv ← jsGetE blockData "id"
  if (getBlock d.article.blocks idv).isSome then
    .error (.duplicateId idv)
  else do
    let block ← Block.construct blockData
    .ok (⟨{ d.article with blocks := d.article.blocks ++ [block] }⟩, block)

/-- The index at which `splice(pos, 0, x)` inserts: negative positions
count from the end (clamped at 0), positions beyond the length append. -/
def spliceIndex (len : ℕ) (pos : Int) : ℕ :=
  if pos < 0 then (max ((len : Int) + pos) 0).toNat else min pos.toNat len

/-- `insertBlock(blockData, position)`: same checks as `addBlock`, then a
bounds-permissive splice insertion. -/
def insertBlock (d : BlockDocDocument) (blockData : Value) (position : Int) :
    Except JsError (BlockDocDocument × BlockData) := do
  let idv ← jsGetE blockData "id"
  if (getBlock d.article.blocks idv).isSome then
    .error (.duplicateId idv)
  else do
    let block ← Block.construct blockData
    let i := spliceIndex d.article.blocks.length position
    .ok (⟨{ d.article with blocks := d.article.blocks.insertIdx i block }⟩, block)

/-- The object spread `{...currentBlock, ...updates}`: keys of the
current block keep their position, taking the update value when the
updates object has the key; keys only in the updates object are appended
in their order. -/
def jsMerge (current updates : BlockData) : BlockData :=
  current.map (fun p =>
    match getProp updates p.1 with
    | some v => (p.1, v)
    | none => p)
  ++ updates.filter (fun p => (getProp current p.1).isNone)

/-- `updateBlock(id, updates)`: find by id, shallow-merge, re-construct a
`Block` from the merged data (re-running full validation), and replace
the stored entry with the new projection. -/
def updateBlock (d : BlockDocDocument) (id : Value) (updates : BlockData) :
    Except JsError (BlockDocDocument × BlockData) :=
  match findIndexById d.article.blocks (some id) with
  | none => .error (.blockNotFound id)
  | some index =>
      let currentBlock := (d.article.blocks[index]?).getD []
      let updatedBlock := jsMerge currentBlock updates
      match Block.construct (.vObj updatedBlock) with
      | .error e => .error e
      | .ok block =>
          .ok (⟨{ d.article with blocks := d.article.blocks.set index block }⟩, block)

/-- `removeBlock(id)`: remove the first match, report whether anything
was removed. -/
def removeBlock (d : BlockDocDocument) (id : Value) : BlockDocDocument × Bool :=
  match findIndexById d.article.blocks (some id) with
  | none => (d, false)
  | some index => (⟨{ d.article with blocks := d.article.blocks.eraseIdx index }⟩, true)

/-- `moveBlock(id, newPosition)`: `false` when the id is not found;
otherwise a strict bounds check against the current length, then a
remove/re-insert splice pair. -/
def moveBlock (d : BlockDocDocument) (id : Value) (newPosition : Int) :
    Except JsError (BlockDocDocument × Bool) :=
  match findIndexById d.article.blocks (some id) with
  | none => .ok (d, false)
  | some index =>
      if newPosition < 0 || (d.article.blocks.length : Int) ≤ newPosition then
        .error (.invalidPosition newPosition)
      else
        let block := (d.article.blocks[index]?).getD []
        let removed := d.article.blocks.eraseIdx index
        .ok (⟨{ d.article with blocks := removed.insertIdx newPosition.toNat block }⟩, true)

/-- The `BlockDocDocument` constructor: records title and metadata (with
defaults for `undefined`), then adds the initial blocks one at a time
through `addBlock` — but only when the blocks option is an array
(`if (blocks && Array.isArray(blocks))`; arrays are always truthy, so
the guard is equivalent to `Array.isArray(blocks)`). -/
def construct (title : Option Value) (metadata : Option Value) (blocks : Option Value) :
    Except JsError BlockDocDocument :=
  let md := metadata.getD (.vObj [])
  let bl := blocks.getD (.vArr [])
  let init : BlockDocDocument := ⟨⟨title, md, []⟩⟩
  match bl with
  | .vArr arr => arr.foldlM (fun d bv => (addBlock d bv).map Prod.fst) init
  | _ => .ok init

/-- `toJSON()`, composed with the JSON value serialization performed by
`toString()`: the JSON shape `{article: {title, metadata, blocks}}`.  An
`undefined` title is dropped, as `JSON.stringify` drops keys whose value
is `undefined`. -/
def toJSON (d : BlockDocDocument) : Value :=
  .vObj [("article", .vObj (
    (match d.article.title with
     | some v => [("title", v)]
     | none => [])
    ++ [("metadata", d.article.metadata),
        ("blocks", .vArr (d.article.blocks.map .vObj))]))]

/-- `fromJSON(json)` at the parsed-value level.  The source first applies
`JSON.parse` when given a string; `JSON.parse` of the `toString()` output
is the identity on the JSON value `toJSON()` describes (a host-library
fact), so the embedding consumes the value directly. -/
def fromJSON (data : Value) : Except JsError BlockDocDocument := do
  let articleOpt ← jsGetE data "article"
  match articleOpt with
  | some a =>
      if truthy a = false then .error .missingArticle
      else do
        let title ← jsGetE a "title"
        let mdOpt ← jsGetE a "metadata"
        let blOpt ← jsGetE a "blocks"
        construct title (some (jsOr mdOpt (.vObj []))) (some (jsOr blOpt (.vArr [])))
  | none => .error .missingArticle

end BlockDocDocument

/-! ## Renderers (renderers/markdown.js, renderers/html.js) -/

/-- The structure guard shared by both renderers:
`!article || !article.blocks || !Array.isArray(article.blocks)` fails
unless the article argument is truthy and its `blocks` property is an
array (arrays are always truthy).  Returns the article value paired with
the blocks when the guard passes. -/
def articleBlocks (article : Option Value) : Option (Value × List Value) :=
  match article with
  | none => none
  | some a =>
      if truthy a = false then none
      else
        match jsGet a "blocks" with
        | some (.vArr xs) => some (a, xs)
        | _ => none

/-- The clamped heading level `Math.min(Math.max(parseInt(level) || 2, 1), 6)`
computed identically by both renderers (`parseInt` yielding `NaN` or `0`
falls back to 2). -/
def validLevel (lvl : Option Value) : ℕ :=
  let base : Int :=
    match jsParseInt lvl with
    | none => 2
    | some k => if k = 0 then 2 else k
  (min (max base 1) 6).toNat

/-- Markdown text block: the content is returned as-is (it is already
Markdown) — including a non-string or `undefined` content value, which the
final `join` will stringify. -/
def renderTextBlockToMarkdown (block : Value) : Option Value :=
  jsGet block "content"

/-- Markdown heading block: `'#'.repeat(validLevel) + " " + content`. -/
def renderHeadingBlockToMarkdown (block : Value) : String :=
  String.mk (List.replicate (validLevel (jsGet block "level")) '#')
    ++ " " ++ jsToStringOpt (jsGet block "content")

/-- Markdown image block. -/
def renderImageBlockToMarkdown (block : Value) : String :=
  let url := jsGet block "url"
  let alt := jsGet block "alt"
  let caption := jsGet block "caption"
  let md := "![" ++ (if truthyOpt alt then jsToStringOpt alt else "")
    ++ "](" ++ jsToStringOpt url ++ ")"
  if truthyOpt caption then md ++ "\n*" ++ jsToStringOpt caption ++ "*" else md

/-- Markdown code block. -/
def renderCodeBlockToMarkdown (block : Value) : String :=
  let language := jsGet block "language"
  let content := jsGet block "content"
  "```" ++ (if truthyOpt language then jsToStringOpt language else "")
    ++ "\n" ++ jsToStringOpt content ++ "\n```"

/-- Markdown list block. -/
def renderListBlockToMarkdown (block : Value) : String :=
  let listType := jsGet block "listType"
  match jsGet block "items" with
  | some (.vArr xs) =>
      String.intercalate "\n"
        (xs.enum.map (fun p =>
          if jsEqOpt listType (some (.vStr "ordered")) then
            toString (p.1 + 1) ++ ". " ++ jsToString p.2
          else
            "- " ++ jsToString p.2))
  | _ => "[Invalid list items]"

/-- Markdown quote block: `content.split('\n')` throws a `TypeError`
unless the content is a string. -/
def renderQuoteBlockToMarkdown (block : Value) : Except JsError String :=
  match jsGet block "content" with
  | some (.vStr s) =>
      let md := String.intercalate "\n" ((s.splitOn "\n").map (fun line => "> " ++ line))
      let attribution := jsGet block "attribution"
      .ok (if truthyOpt attribution then md ++ "\n>\n>  " ++ jsToStringOpt attribution else md)
  | _ => .error .hostError

/-- Markdown embed block. -/
def renderEmbedBlockToMarkdown (block : Value) : String :=
  let url := jsGet block "url"
  let caption := jsGet block "caption"
  let embedType := jsGet block "embedType"
  let md := "[" ++ (if truthyOpt embedType then jsToStringOpt embedType else "Embedded content")
    ++ ": " ++ jsToStringOpt url ++ "](" ++ jsToStringOpt url ++ ")"
  if truthyOpt caption then md ++ "\n*" ++ jsToStringOpt caption ++ "*" else md

/-- Per-block Markdown dispatch (`renderBlockToMarkdown`).  The `switch`
compares `block.type` with `===`, so only exact string matches reach a
known branch; everything else produces the unknown-type placeholder.
Destructuring a `null` block throws.  The result is the JS value the
function returns (text blocks may return a non-string). -/
def renderBlockToMarkdown (block : Value) : Except JsError (Option Value) :=
  match block with
  | .vNull => .error .hostError
  | _ =>
      match jsGet block "type" with
      | some (.vStr "text") => .ok (renderTextBlockToMarkdown block)
      | some (.vStr "heading") => .ok (some (.vStr (renderHeadingBlockToMarkdown block)))
      | some (.vStr "image") => .ok (some (.vStr (renderImageBlockToMarkdown block)))
      | some (.vStr "code") => .ok (some (.vStr (renderCodeBlockToMarkdown block)))
      | some (.vStr "list") => .ok (some (.vStr (renderListBlockToMarkdown block)))
      | some (.vStr "quote") => (renderQuoteBlockToMarkdown block).map (fun s => some (.vStr s))
      | some (.vStr "embed") => .ok (some (.vStr (renderEmbedBlockToMarkdown block)))
      | some (.vStr "divider") => .ok (some (.vStr "---"))
      | t => .ok (some (.vStr ("[Unknown block type: " ++ jsToStringOpt t ++ "]")))

/-- The metadata lines of the Markdown document header (`dateFn` is the
host `new Date(x).toDateString()` collaborator). -/
def mdMetaLines (dateFn : Value → String) (md : Value) : List String :=
  (match jsGet md "author" with
   | some av => if truthy av then ["> Author: " ++ jsToString av] else []
   | none => [])
  ++ (match jsGet md "publishedDate" with
      | some pv => if truthy pv then ["> Published: " ++ dateFn pv] else []
      | none => [])
  ++ (match jsGet md "tags" with
      | some (.vArr xs) => if 0 < xs.length then ["> Tags: " ++ jsJoin ", " xs] else []
      | _ => [])
  ++ [""]

/-- The fixed lines pushed before the per-block renderings: title line,
blank line, and the metadata lines when `article.metadata` is truthy. -/
def mdHeader (dateFn : Value → String) (a : Value) : List String :=
  ["# " ++ jsToStringOpt (jsGet a "title"), ""]
  ++ (match jsGet a "metadata" with
      | some mv => if truthy mv then mdMetaLines dateFn mv else []
      | none => [])

/-- Stringification applied by `markdown.join('\n')` to each pushed
entry: `undefined` and `null` become the empty string. -/
def mdEntryStr : Option Value → String
  | none => ""
  | some .vNull => ""
  | some v => jsToString v

/-- The final `markdown.join('\n')` over the header lines and the
per-block renderings (each followed by a pushed blank line). -/
def mdAssemble (dateFn : Value → String) (a : Value) (outs : List (Option Value)) : String :=
  String.intercalate "\n"
    (mdHeader dateFn a ++ outs.flatMap (fun o => [mdEntryStr o, ""]))

/-- `renderToMarkdown(article)`. -/
def renderToMarkdown (dateFn : Value → String) (article : Option Value) :
    Except JsError String :=
  match articleBlocks article with
  | none => .error .invalidArticleStructure
  | some (a, xs) => do
      let outs ← xs.mapM renderBlockToMarkdown
      .ok (mdAssemble dateFn a outs)

/-- The components the WHATWG `URL` parser exposes to
`extractYouTubeId`: `vParam` models `new URLSearchParams(search).get("v")`
(`none` for `null`). -/
structure UrlParts where
  hostname : String
  pathname : String
  vParam : Option String

/-- The host collaborators the HTML renderer uses: the CommonMark
converter `marked.parse` (which throws on non-string input — modelled by
an `error` result), the highlighter `hljs`, and the `URL` parser (`none`
models a parse failure, caught by `extractYouTubeId`). -/
structure HtmlHost where
  markedParse : Option Value → Except Unit String
  getLanguage : Value → Bool
  highlight : Option Value → Value → Except Unit String
  highlightAuto : Option Value → Except Unit String
  parseUrl : Option Value → Option UrlParts

/-- `extractYouTubeId(url)`: `youtu.be` host → path without the leading
slash; `youtube.com` hosts → the `v` query parameter; anything else, or a
parse failure, yields no id. -/
def extractYouTubeId (pu : Option Value → Option UrlParts) (url : Option Value) : Option String :=
  match pu url with
  | none => none
  | some u =>
      if u.hostname == "youtu.be" then some (u.pathname.drop 1)
      else if u.hostname == "www.youtube.com" || u.hostname == "youtube.com" then u.vParam
      else none

/-- HTML text block: `marked.parse(block.content)` (host failures mapped
to `hostError`). -/
def renderTextBlock (H : HtmlHost) (block : Value) : Except JsError String :=
  (H.markedParse (jsGet block "content")).mapError (fun _ => .hostError)

/-- HTML heading block: clamped level, escaped content. -/
def renderHeadingBlock (block : Value) : String :=
  let n := toString (validLevel (jsGet block "level"))
  "<h" ++ n ++ ">" ++ sanitizeHtmlV (jsGet block "content") ++ "</h" ++ n ++ ">"

/-- HTML image block. -/
def renderImageBlock (block : Value) : String :=
  let url := jsGet block "url"
  let alt := jsGet block "alt"
  let caption := jsGet block "caption"
  let img := "<img src=\"" ++ sanitizeHtmlV url ++ "\" alt=\"" ++ sanitizeHtmlV alt
    ++ "\" class=\"blockdoc-image\" />"
  if truthyOpt caption then
    "<figure class=\"blockdoc-figure\">" ++ img
      ++ "<figcaption class=\"blockdoc-caption\">" ++ sanitizeHtmlV caption
      ++ "</figcaption>" ++ "</figure>"
  else img

/-- HTML code block: highlight via `hljs` (language-keyed when the
language is truthy and known, auto-detected otherwise); any highlighter
exception falls back to the escaped raw content. -/
def renderCodeBlock (H : HtmlHost) (block : Value) : String :=
  let language := jsGet block "language"
  let content := jsGet block "content"
  let highlighted : Except Unit String :=
    match language with
    | some lv => if truthy lv && H.getLanguage lv then H.highlight content lv
                 else H.highlightAuto content
    | none => H.highlightAuto content
  let code := match highlighted with
    | .ok h => h
    | .error _ => sanitizeHtmlV content
  "\n    <pre class=\"blockdoc-pre\">\n      <code class=\"blockdoc-code "
    ++ (if truthyOpt language then "language-" ++ jsToStringOpt language else "")
    ++ "\">" ++ code ++ "</code>\n    </pre>\n  "

/-- HTML list block: each item through the CommonMark converter. -/
def renderListBlock (H : HtmlHost) (block : Value) : Except JsError String :=
  let listType := jsGet block "listType"
  match jsGet block "items" with
  | some (.vArr xs) => do
      let tag := if jsEqOpt listType (some (.vStr "ordered")) then "ol" else "ul"
      let itemsHtml ← xs.mapM (fun item =>
        ((H.markedParse (some item)).mapError (fun _ => JsError.hostError)).map
          (fun h => "<li>" ++ h ++ "</li>"))
      .ok ("<" ++ tag ++ " class=\"blockdoc-list blockdoc-list-" ++ jsToStringOpt listType
        ++ "\">" ++ String.join itemsHtml ++ "</" ++ tag ++ ">")
  | _ => .ok "<p>Invalid list items</p>"

/-- HTML quote block. -/
def renderQuoteBlock (H : HtmlHost) (block : Value) : Except JsError String := do
  let inner ← (H.markedParse (jsGet block "content")).mapError (fun _ => JsError.hostError)
  let html := "<blockquote class=\"blockdoc-quote\">" ++ inner ++ "</blockquote>"
  let attribution := jsGet block "attribution"
  .ok (if truthyOpt attribution then
        html ++ "<cite class=\"blockdoc-attribution\">" ++ sanitizeHtmlV attribution ++ "</cite>"
      else html)

/-- The fixed YouTube iframe markup (exact template literal, including
the trailing spaces inside the source lines). -/
def youtubeEmbedHtml (vid : String) : String :=
  "\n        <div class=\"blockdoc-embed-container\">\n          <iframe \n            width=\"560\" \n            height=\"315\" \n            src=\"https://www.youtube.com/embed/"
    ++ vid
    ++ "\" \n            frameborder=\"0\" \n            allow=\"accelerometer; autoplay; clipboard-write; encrypted-media; gyroscope; picture-in-picture\" \n            allowfullscreen>\n          </iframe>\n        </div>\n      "

/-- The fixed Twitter embed markup. -/
def twitterEmbedHtml (url : Option Value) : String :=
  "\n      <div class=\"blockdoc-embed blockdoc-twitter\">\n        <blockquote class=\"twitter-tweet\">\n          <a href=\""
    ++ sanitizeHtmlV url
    ++ "\"></a>\n        </blockquote>\n        <script async src=\"https://platform.twitter.com/widgets.js\" charset=\"utf-8\"></script>\n      </div>\n    "

/-- The generic iframe embed markup. -/
def genericEmbedHtml (url : Option Value) : String :=
  "\n      <div class=\"blockdoc-embed\">\n        <iframe \n          src=\""
    ++ sanitizeHtmlV url
    ++ "\" \n          frameborder=\"0\" \n          width=\"100%\" \n          height=\"400\"\n          allowfullscreen>\n        </iframe>\n      </div>\n    "

/-- HTML embed block: YouTube branch (with id extraction and an invalid
fallback), Twitter branch, generic iframe branch, and the optional
figure/caption wrapper applied to every branch. -/
def renderEmbedBlock (H : HtmlHost) (block : Value) : String :=
  let url := jsGet block "url"
  let caption := jsGet block "caption"
  let embedType := jsGet block "embedType"
  let embedHtml :=
    if jsEqOpt embedType (some (.vStr "youtube")) then
      match extractYouTubeId H.parseUrl url with
      | some vid => if vid != "" then youtubeEmbedHtml vid else "<p>Invalid YouTube URL</p>"
      | none => "<p>Invalid YouTube URL</p>"
    else if jsEqOpt embedType (some (.vStr "twitter")) then twitterEmbedHtml url
    else genericEmbedHtml url
  if truthyOpt caption then
    "<figure class=\"blockdoc-figure\">" ++ embedHtml
      ++ "<figcaption class=\"blockdoc-caption\">" ++ sanitizeHtmlV caption
      ++ "</figcaption>" ++ "</figure>"
  else embedHtml

/-- HTML divider block. -/
def renderDividerBlock : String := "<hr class=\"blockdoc-divider\" />"

/-- Per-block HTML dispatch (`renderBlock`): data-attribute wrapper
around the per-type content; unknown types yield the placeholder
paragraph.  Destructuring a `null` block throws. -/
def renderBlock (H : HtmlHost) (block : Value) : Except JsError String :=
  match block with
  | .vNull => .error .hostError
  | _ =>
      let id := jsGet block "id"
      let ty := jsGet block "type"
      let openWrapper := "<div class=\"blockdoc-block blockdoc-" ++ jsToStringOpt ty
        ++ "\" data-block-id=\"" ++ jsToStringOpt id
        ++ "\" data-block-type=\"" ++ jsToStringOpt ty ++ "\">"
      let content : Except JsError String :=
        match ty with
        | some (.vStr "text") => renderTextBlock H block
        | some (.vStr "heading") => .ok (renderHeadingBlock block)
        | some (.vStr "image") => .ok (renderImageBlock block)
        | some (.vStr "code") => .ok (renderCodeBlock H block)
        | some (.vStr "list") => renderListBlock H block
        | some (.vStr "quote") => renderQuoteBlock H block
        | some (.vStr "embed") => .ok (renderEmbedBlock H block)
        | some (.vStr "divider") => .ok renderDividerBlock
        | t => .ok ("<p>Unknown block type: " ++ jsToStringOpt t ++ "</p>")
      content.map (fun c => openWrapper ++ c ++ "</div>")

/-- The final `html.join('\n')`: article wrapper, escaped title heading,
per-block renderings, closing tag. -/
def htmlAssemble (a : Value) (outs : List String) : String :=
  String.intercalate "\n"
    (["<article class=\"blockdoc-article\">",
      "<h1 class=\"blockdoc-title\">" ++ sanitizeHtmlV (jsGet a "title") ++ "</h1>"]
     ++ outs ++ ["</article>"])

/-- `renderToHTML(article)`. -/
def renderToHTML (H : HtmlHost) (article : Option Value) : Except JsError String :=
  match articleBlocks article with
  | none => .error .invalidArticleStructure
  | some (a, xs) => do
      let outs ← xs.mapM (renderBlock H)
      .ok (htmlAssemble a outs)

/-! ## Specification-side definitions

Definitions in this section transcribe wording of the specification (not
the source); theorems compare them with the source-derived definitions
above. -/

/-- The five characters `sanitizeHtml` escapes. -/
def specialChars : List Char := ['&', '<', '>', '"', Char.ofNat 39]

/-- JS `Math.round` (halves round toward positive infinity), used by the
spec sentence "the rendered heading tag/hashtag-count equals
`min(max(round(v) or 2, 1), 6)`". -/
def specRound (q : ℚ) : Int := ⌊q + 1/2⌋

/-- The heading-level formula exactly as the claim states it, for a
numeric level `v`: `min(max(round(v) or 2, 1), 6)`, with a non-numeric or
absent level giving 2. -/
def specHeadingLevelClaim (lvl : Option Value) : Int :=
  match lvl with
  | some (.vNum q) =>
      let r := specRound q
      min (max (if r = 0 then 2 else r) 1) 6
  | _ => 2

/-- The ids of the stored blocks, in order (`undefined` for a block
without an id, which document-constructed blocks never are). -/
def blockIds (blocks : List BlockData) : List (Option Value) :=
  blocks.map (fun b => getProp b "id")

/-! ## Sanitizer lemmas and claims C2, C9 -/

theorem escChar_of_not_special {c : Char} (h : c ∉ specialChars) :
    escChar c = String.singleton c := by
  simp only [specialChars, List.mem_cons, List.not_mem_nil, or_false, not_or] at h
  obtain ⟨h1, h2, h3, h4, h5⟩ := h
  simp [escChar, h1, h2, h3, h4, h5]

theorem sanitizeChars_of_no_special {l : List Char} (h : ∀ c ∈ l, c ∉ specialChars) :
    sanitizeChars l = l := by
  induction l with
  | nil => rfl
  | cons c cs ih =>
      rw [sanitizeChars, escChar_of_not_special (h c (by simp)),
        ih (fun x hx => h x (by simp [hx]))]
      rfl

theorem one_le_escChar_length (c : Char) : 1 ≤ (escChar c).data.length := by
  by_cases h : c ∈ specialChars
  · simp only [specialChars, List.mem_cons, List.not_mem_nil, or_false] at h
    rcases h with rfl | rfl | rfl | rfl | rfl <;> decide
  · rw [escChar_of_not_special h]
    simp [String.singleton]

theorem length_le_sanitizeChars (l : List Char) :
    l.length ≤ (sanitizeChars l).length := by
  induction l with
  | nil => simp [sanitizeChars]
  | cons c cs ih =>
      rw [sanitizeChars, List.length_append, List.length_cons]
      have := one_le_escChar_length c
      omega

theorem amp_mem_escChar {c : Char} (h : c ∈ specialChars) :
    '&' ∈ (escChar c).data := by
  simp only [specialChars, List.mem_cons, List.not_mem_nil, or_false] at h
  rcases h with rfl | rfl | rfl | rfl | rfl <;> decide

theorem amp_mem_sanitizeChars {l : List Char} (h : ∃ c ∈ l, c ∈ specialChars) :
    '&' ∈ sanitizeChars l := by
  induction l with
  | nil => simp at h
  | cons c cs ih =>
      rw [sanitizeChars, List.mem_append]
      rcases h with ⟨d, hd, hds⟩
      rcases List.mem_cons.mp hd with rfl | hdcs
      · exact Or.inl (amp_mem_escChar hds)
      · exact Or.inr (ih ⟨d, hdcs, hds⟩)

theorem lt_sanitizeChars_length {l : List Char} (h : ∃ c ∈ l, c ∈ specialChars) :
    l.length < (sanitizeChars l).length := by
  induction l with
  | nil => simp at h
  | cons c cs ih =>
      rw [sanitizeChars, List.length_append, List.length_cons]
      rcases h with ⟨d, hd, hds⟩
      rcases List.mem_cons.mp hd with rfl | hdcs
      · have h2 : 2 ≤ (escChar d).data.length := by
          simp only [specialChars, List.mem_cons, List.not_mem_nil, or_false] at hds
          rcases hds with rfl | rfl | rfl | rfl | rfl <;> decide
        have := length_le_sanitizeChars cs
        omega
      · have := ih ⟨d, hdcs, hds⟩
        have := one_le_escChar_length c
        omega

theorem sanitizeHtml_data_of_ne {s : String} (h : s ≠ "") :
    (sanitizeHtml s).data = sanitizeChars s.data := by
  rw [sanitizeHtml, if_neg (by simpa using h)]

/-- C9 counterexample: `sanitizeHtml` does double-encode an
already-escaped sequence — applying it to its own output `"&amp;"`
re-encodes the ampersand, so it is not idempotent. -/
theorem sanitizeHtml_not_idempotent_on_amp :
    sanitizeHtml "&" = "&amp;"
    ∧ sanitizeHtml (sanitizeHtml "&") = "&amp;amp;"
    ∧ sanitizeHtml (sanitizeHtml "&") ≠ sanitizeHtml "&" := by
  refine ⟨rfl, rfl, ?_⟩
  decide

/-- C9 (amended): `sanitizeHtml` is one simultaneous character-class
substitution pass: on a string with no HTML-special character it is the
identity (hence idempotent there), while on any string containing a
special character a second application grows the string again (each
produced entity contains `&`), so `sanitizeHtml (sanitizeHtml s) =
sanitizeHtml s` holds exactly for strings without special characters. -/
theorem sanitizeHtml_single_pass (s : String) :
    ((∀ c ∈ s.data, c ∉ specialChars) →
      sanitizeHtml s = s ∧ sanitizeHtml (sanitizeHtml s) = sanitizeHtml s)
    ∧ ((∃ c ∈ s.data, c ∈ specialChars) →
      sanitizeHtml (sanitizeHtml s) ≠ sanitizeHtml s) := by
  constructor
  · intro h
    have hid : sanitizeHtml s = s := by
      by_cases hs : s = ""
      · subst hs; rfl
      · have hd : (sanitizeHtml s).data = s.data := by
          rw [sanitizeHtml_data_of_ne hs, sanitizeChars_of_no_special h]
        exact String.ext hd
    exact ⟨hid, by rw [hid, hid]⟩
  · intro h
    have hs : s ≠ "" := by
      rcases h with ⟨c, hc, _⟩
      intro hnil
      subst hnil
      simp at hc
    have hdata : (sanitizeHtml s).data = sanitizeChars s.data :=
      sanitizeHtml_data_of_ne hs
    have hamp : '&' ∈ (sanitizeHtml s).data := by
      rw [hdata]; exact amp_mem_sanitizeChars h
    have hne2 : sanitizeHtml s ≠ "" := by
      intro hempty
      rw [hempty] at hamp
      simp at hamp
    have hlen : (sanitizeHtml s).data.length < (sanitizeChars (sanitizeHtml s).data).length :=
      lt_sanitizeChars_length ⟨'&', hamp, by decide⟩
    intro heq
    have : (sanitizeHtml (sanitizeHtml s)).data = (sanitizeHtml s).data := by rw [heq]
    rw [sanitizeHtml_data_of_ne hne2] at this
    have := congrArg List.length this
    omega

/-- C9 witness: the amended characterization applied at the concrete
strings `"ab"` (no special character: fixed point) and `"&"` (special
character: not a fixed point). -/
theorem sanitizeHtml_single_pass_witness :
    sanitizeHtml "ab" = "ab"
    ∧ sanitizeHtml (sanitizeHtml "&") ≠ sanitizeHtml "&" :=
  ⟨((sanitizeHtml_single_pass "ab").1 (by decide)).1,
   (sanitizeHtml_single_pass "&").2 (by decide)⟩

/-! ## List and Except utilities -/

theorem exceptOk_bind {α β ε : Type} (x : α) (f : α → Except ε β) :
    (Except.ok x >>= f) = f x := rfl

theorem exceptError_bind {α β ε : Type} (e : ε) (f : α → Except ε β) :
    ((Except.error e : Except ε α) >>= f) = .error e := rfl

theorem map_eraseIdx {α β : Type} (f : α → β) :
    ∀ (l : List α) (i : ℕ), (l.eraseIdx i).map f = (l.map f).eraseIdx i
  | [], _ => by simp
  | x :: xs, 0 => by simp
  | x :: xs, i + 1 => by simp [List.eraseIdx, map_eraseIdx f xs i]

theorem map_insertIdx {α β : Type} (f : α → β) :
    ∀ (i : ℕ) (l : List α) (a : α),
      (l.insertIdx i a).map f = (l.map f).insertIdx i (f a)
  | 0, l, a => by simp
  | i + 1, [], a => by simp
  | i + 1, x :: xs, a => by
      simp [List.insertIdx_succ_cons, map_insertIdx f i xs a]

theorem nodup_insertIdx {α : Type} {a : α} (l : List α) (i : ℕ)
    (hn : l.Nodup) (ha : a ∉ l) : (l.insertIdx i a).Nodup := by
  induction l generalizing i with
  | nil =>
      cases i with
      | zero => simp
      | succ i => simp
  | cons x xs ih =>
      cases i with
      | zero =>
          rw [List.insertIdx_zero, List.nodup_cons]
          exact ⟨ha, hn⟩
      | succ i =>
          rw [List.insertIdx_succ_cons, List.nodup_cons]
          rw [List.nodup_cons] at hn
          have hax : a ∉ xs := fun hx => ha (by simp [hx])
          refine ⟨?_, ih i hn.2 hax⟩
          by_cases hb : i ≤ xs.length
          · rw [List.mem_insertIdx hb]
            rintro (rfl | hxx)
            · exact ha (by simp)
            · exact hn.1 hxx
          · rw [List.insertIdx_of_length_lt _ _ _ (by omega)]
            exact hn.1

theorem not_mem_eraseIdx_self {α : Type} (l : List α) (i : ℕ) (h : i < l.length)
    (hn : l.Nodup) : l[i] ∉ l.eraseIdx i := by
  induction l generalizing i with
  | nil => simp at h
  | cons x xs ih =>
      cases i with
      | zero => simpa using (List.nodup_cons.mp hn).1
      | succ i =>
          rw [List.nodup_cons] at hn
          simp only [List.getElem_cons_succ, List.eraseIdx, List.mem_cons]
          rintro (heq | hmem)
          · exact hn.1 (heq ▸ List.getElem_mem (by simpa using h))
          · exact ih i (by simpa using h) hn.2 hmem

theorem set_getElem_self {α : Type} :
    ∀ (l : List α) (i : ℕ) (h : i < l.length), l.set i l[i] = l
  | x :: xs, 0, _ => by simp
  | x :: xs, i + 1, h => by
      simp [set_getElem_self xs i (by simpa using h)]

/-! ## Document operation characterizations -/

theorem getBlock_eq_none_iff {blocks : List BlockData} {id : Option Value} :
    BlockDocDocument.getBlock blocks id = none ↔ ∀ b ∈ blocks, getProp b "id" ≠ id := by
  rw [BlockDocDocument.getBlock, List.find?_eq_none]
  simp [jsEqOpt_iff]

theorem getBlock_isSome_iff {blocks : List BlockData} {id : Option Value} :
    (BlockDocDocument.getBlock blocks id).isSome = true ↔
      ∃ b ∈ blocks, getProp b "id" = id := by
  rw [BlockDocDocument.getBlock, List.find?_isSome]
  simp [jsEqOpt_iff]

theorem addBlock_eq (d : BlockDocDocument) (data : BlockData) :
    BlockDocDocument.addBlock d (.vObj data) =
      if (BlockDocDocument.getBlock d.article.blocks (getProp data "id")).isSome then
        .error (.duplicateId (getProp data "id"))
      else
        (Block.construct (.vObj data)).map
          (fun blk => (⟨{ d.article with blocks := d.article.blocks ++ [blk] }⟩, blk)) := by
  have hg : jsGetE (Value.vObj data) "id" = Except.ok (getProp data "id") := rfl
  rw [BlockDocDocument.addBlock, hg, exceptOk_bind]
  by_cases h : (BlockDocDocument.getBlock d.article.blocks (getProp data "id")).isSome
  · rw [if_pos h, if_pos h]
  · rw [if_neg h, if_neg h]
    cases hc : Block.construct (Value.vObj data) with
    | error e => rw [exceptError_bind]; rfl
    | ok blk => rw [exceptOk_bind]; rfl

theorem insertBlock_eq (d : BlockDocDocument) (data : BlockData) (position : Int) :
    BlockDocDocument.insertBlock d (.vObj data) position =
      if (BlockDocDocument.getBlock d.article.blocks (getProp data "id")).isSome then
        .error (.duplicateId (getProp data "id"))
      else
        (Block.construct (.vObj data)).map
          (fun blk => (⟨{ d.article with blocks := d.article.blocks.insertIdx (BlockDocDocument.spliceIndex d.article.blocks.length position) blk }⟩, blk)) := by
  have hg : jsGetE (Value.vObj data) "id" = Except.ok (getProp data "id") := rfl
  rw [BlockDocDocument.insertBlock, hg, exceptOk_bind]
  by_cases h : (BlockDocDocument.getBlock d.article.blocks (getProp data "id")).isSome
  · rw [if_pos h, if_pos h]
  · rw [if_neg h, if_neg h]
    cases hc : Block.construct (Value.vObj data) with
    | error e => rw [exceptError_bind]; rfl
    | ok blk => rw [exceptOk_bind]; rfl

theorem matchesHttpCI_iff (url : String) :
    matchesHttpCI url = true ↔
      ((url.data.take 7).map Char.toLower = "http://".data
        ∨ (url.data.take 8).map Char.toLower = "https://".data) := by
  simp [matchesHttpCI]

theorem startsSlashSlash_iff (url : String) :
    startsSlashSlash url = true ↔ url.data.take 2 = ['/', '/'] := by
  rw [startsSlashSlash]
  match h : url.data with
  | [] => simp
  | [c] => simp
  | c :: c2 :: rest => simp [List.take]

/-- C2: full characterization of `sanitizeUrl`: empty input maps to
`""`; a url beginning (case-insensitively) with `http://` or `https://`
is returned unchanged; otherwise a url beginning with `//` gets `https:`
prepended; otherwise a url containing no colon is returned unchanged; in
every remaining case (any other scheme) the result is `""`. -/
theorem sanitizeUrl_characterization (url : String) :
    (url = "" → sanitizeUrl url = "")
    ∧ (((url.data.take 7).map Char.toLower = "http://".data
          ∨ (url.data.take 8).map Char.toLower = "https://".data) →
        sanitizeUrl url = url)
    ∧ (¬ ((url.data.take 7).map Char.toLower = "http://".data
          ∨ (url.data.take 8).map Char.toLower = "https://".data) →
        url.data.take 2 = ['/', '/'] →
        sanitizeUrl url = "https:" ++ url)
    ∧ (¬ ((url.data.take 7).map Char.toLower = "http://".data
          ∨ (url.data.take 8).map Char.toLower = "https://".data) →
        url.data.take 2 ≠ ['/', '/'] →
        (':' ∉ url.data) →
        sanitizeUrl url = url)
    ∧ (¬ ((url.data.take 7).map Char.toLower = "http://".data
          ∨ (url.data.take 8).map Char.toLower = "https://".data) →
        url.data.take 2 ≠ ['/', '/'] →
        (':' ∈ url.data) →
        sanitizeUrl url = "") := by
  refine ⟨?_, ?_, ?_, ?_, ?_⟩
  · intro h; subst h; rfl
  · intro h
    rw [sanitizeUrl]
    by_cases he : url = ""
    · subst he; rfl
    · rw [if_neg (by simpa using he), if_pos ((matchesHttpCI_iff url).mpr h)]
  · intro hh hs
    have he : url ≠ "" := by
      intro hnil; subst hnil; simp at hs
    have h1 : ¬ (url == "") = true := by simpa using he
    have h2 : ¬ matchesHttpCI url = true := fun hx => hh ((matchesHttpCI_iff url).mp hx)
    rw [sanitizeUrl, if_neg h1, if_neg h2, if_pos ((startsSlashSlash_iff url).mpr hs)]
  · intro hh hs hc
    by_cases he : url = ""
    · subst he; rfl
    · have h1 : ¬ (url == "") = true := by simpa using he
      have h2 : ¬ matchesHttpCI url = true := fun hx => hh ((matchesHttpCI_iff url).mp hx)
      have h3 : ¬ startsSlashSlash url = true := fun hx => hs ((startsSlashSlash_iff url).mp hx)
      have h4 : (!(url.data.contains ':')) = true := by
        simpa using hc
      rw [sanitizeUrl, if_neg h1, if_neg h2, if_neg h3, if_pos h4]
  · intro hh hs hc
    have he : url ≠ "" := by
      intro hnil; subst hnil; simp at hc
    have h1 : ¬ (url == "") = true := by simpa using he
    have h2 : ¬ matchesHttpCI url = true := fun hx => hh ((matchesHttpCI_iff url).mp hx)
    have h3 : ¬ startsSlashSlash url = true := fun hx => hs ((startsSlashSlash_iff url).mp hx)
    have h4 : ¬ (!(url.data.contains ':')) = true := by
      simpa using hc
    rw [sanitizeUrl, if_neg h1, if_neg h2, if_neg h3, if_neg h4]

/-! ## Block construction lemmas and claims C8, C10 -/

theorem collectRequired_error {ty : String} {data : BlockData} {ps : List String} {f : String}
    (h : ps.find? (fun p => (getProp data p).isNone) = some f) :
    collectRequired ty data ps = .error (.missingRequiredField ty f) := by
  induction ps with
  | nil => simp at h
  | cons p ps ih =>
      rw [collectRequired]
      cases hp : getProp data p with
      | none =>
          rw [List.find?_cons_of_pos _ (by simp [hp])] at h
          injection h with h2
          rw [h2]
      | some v =>
          rw [List.find?_cons_of_neg _ (by simp [hp])] at h
          simp only [ih h, Except.map]

theorem collectRequired_ok {ty : String} {data : BlockData} {ps : List String}
    (h : ps.find? (fun p => (getProp data p).isNone) = none) :
    ∃ r, collectRequired ty data ps = .ok r := by
  induction ps with
  | nil => exact ⟨[], rfl⟩
  | cons p ps ih =>
      rw [collectRequired]
      cases hp : getProp data p with
      | none =>
          rw [List.find?_cons_of_pos _ (by simp [hp])] at h
          exact absurd h (by simp)
      | some v =>
          rw [List.find?_cons_of_neg _ (by simp [hp])] at h
          obtain ⟨r, hr⟩ := ih h
          exact ⟨(p, v) :: r, by simp only [hr, Except.map]⟩

theorem collectRequired_error_inv {ty : String} {data : BlockData} {ps : List String}
    {e : JsError} (h : collectRequired ty data ps = .error e) :
    ∃ f ∈ ps, getProp data f = none ∧ e = .missingRequiredField ty f := by
  induction ps with
  | nil => simp [collectRequired] at h
  | cons p ps ih =>
      rw [collectRequired] at h
      cases hp : getProp data p with
      | none =>
          simp only [hp] at h
          injection h with h2
          exact ⟨p, by simp, hp, h2.symm⟩
      | some v =>
          simp only [hp] at h
          cases hr : collectRequired ty data ps with
          | error e2 =>
              simp only [hr, Except.map] at h
              injection h with h2
              subst h2
              obtain ⟨f, hf, hfn, hfe⟩ := ih hr
              exact ⟨f, by simp [hf], hfn, hfe⟩
          | ok r =>
              simp only [hr, Except.map] at h
              exact Except.noConfusion h

theorem truthy_of_allowed {s : String} (h : s ∈ ALLOWED_TYPES) :
    truthy (.vStr s) = true := by
  simp only [ALLOWED_TYPES, List.mem_cons, List.not_mem_nil, or_false] at h
  rcases h with rfl | rfl | rfl | rfl | rfl | rfl | rfl | rfl <;> decide

theorem isAllowedType_false {t : Option Value}
    (h : ¬ ∃ s ∈ ALLOWED_TYPES, t = some (.vStr s)) :
    isAllowedType t = false := by
  cases t with
  | none => rfl
  | some v =>
      cases v with
      | vStr s =>
          rw [isAllowedType]
          by_cases hm : s ∈ ALLOWED_TYPES
          · exact absurd ⟨s, hm, rfl⟩ h
          · simpa using hm
      | vNum q => rfl
      | vBool b => rfl
      | vNull => rfl
      | vArr xs => rfl
      | vObj fs => rfl

theorem Block.construct_of_invalidType {data : BlockData} {idv : Value}
    (hid : getProp data "id" = some idv) (hidt : truthy idv = true)
    (hfalse : isAllowedType (getProp data "type") = false) :
    Block.construct (.vObj data) = .error (.invalidType (getProp data "type")) := by
  rw [Block.construct, hid]
  simp [hidt, hfalse]

theorem Block.construct_of_allowed {data : BlockData} {idv : Value} {s : String}
    (hid : getProp data "id" = some idv) (hidt : truthy idv = true)
    (hty : getProp data "type" = some (.vStr s)) (hmem : s ∈ ALLOWED_TYPES) :
    Block.construct (.vObj data) =
      match collectRequired s data (TYPE_REQUIREMENTS s) with
      | .error e => .error e
      | .ok req =>
          .ok (addExtras ([("id", idv), ("type", .vStr s),
            ("content", match getProp data "content" with
              | some v => if truthy v then v else .vStr ""
              | none => .vStr "")] ++ req) data) := by
  have htr : truthyOpt (some (Value.vStr s)) = true := truthy_of_allowed hmem
  have hal : isAllowedType (some (Value.vStr s)) = true := by
    rw [isAllowedType]; simpa using hmem
  rw [Block.construct, hid]
  simp only [hidt, hty, htr, hal]
  rfl

/-- C8: with a truthy id present, Block construction fails with the
invalid-type error (whose message enumerates the eight allowed types)
exactly when `type` is absent or not one of the eight allowed kinds; and
for an allowed type it fails with a missing-required-field error naming a
required field exactly when that (first such) field is `undefined` in the
data — a field explicitly present with the empty string counts as
present, so construction succeeds. -/
theorem Block.construct_validation (data : BlockData) (idv : Value)
    (hid : getProp data "id" = some idv) (hidt : truthy idv = true) :
    ((¬ ∃ s ∈ ALLOWED_TYPES, getProp data "type" = some (.vStr s)) ↔
        Block.construct (.vObj data) = .error (.invalidType (getProp data "type")))
    ∧ errMessage (.invalidType (getProp data "type")) =
        "Invalid block type: " ++ jsToStringOpt (getProp data "type")
          ++ ". Allowed types are: text, heading, image, code, list, quote, embed, divider"
    ∧ (∀ s, s ∈ ALLOWED_TYPES → getProp data "type" = some (.vStr s) →
        ((match (TYPE_REQUIREMENTS s).find? (fun f => (getProp data f).isNone) with
          | some f => Block.construct (.vObj data) = .error (.missingRequiredField s f)
              ∧ f ∈ TYPE_REQUIREMENTS s ∧ getProp data f = none
          | none => ∃ b, Block.construct (.vObj data) = .ok b)
         ∧ ∀ f, Block.construct (.vObj data) = .error (.missingRequiredField s f) →
             f ∈ TYPE_REQUIREMENTS s ∧ getProp data f = none)) := by
  have hmsg : errMessage (.invalidType (getProp data "type")) =
      "Invalid block type: " ++ jsToStringOpt (getProp data "type")
        ++ ". Allowed types are: text, heading, image, code, list, quote, embed, divider" := by
    have hj : ". Allowed types are: " ++ String.intercalate ", " ALLOWED_TYPES =
        ". Allowed types are: text, heading, image, code, list, quote, embed, divider" := rfl
    rw [errMessage, String.append_assoc, hj]
  refine ⟨⟨?_, ?_⟩, hmsg, ?_⟩
  · intro h
    exact Block.construct_of_invalidType hid hidt (isAllowedType_false h)
  · intro hres hex
    obtain ⟨s, hmem, hty⟩ := hex
    rw [Block.construct_of_allowed hid hidt hty hmem] at hres
    cases hr : collectRequired s data (TYPE_REQUIREMENTS s) with
    | error e =>
        rw [hr] at hres
        injection hres with h2
        obtain ⟨f, -, -, hfe⟩ := collectRequired_error_inv hr
        rw [hfe] at h2
        exact JsError.noConfusion h2.symm
    | ok r => rw [hr] at hres; exact Except.noConfusion hres
  · intro s hmem hty
    have hbody := Block.construct_of_allowed hid hidt hty hmem
    constructor
    · cases hf : (TYPE_REQUIREMENTS s).find? (fun f => (getProp data f).isNone) with
      | some f =>
          have herr := @collectRequired_error s data _ _ hf
          refine ⟨?_, List.mem_of_find?_eq_some hf, ?_⟩
          · rw [hbody, herr]
          · have := List.find?_some hf
            simpa [Option.isNone_iff_eq_none] using this
      | none =>
          obtain ⟨r, hr⟩ := @collectRequired_ok s data _ hf
          exact ⟨_, by rw [hbody, hr]⟩
    · intro f hres
      rw [hbody] at hres
      cases hr : collectRequired s data (TYPE_REQUIREMENTS s) with
      | error e =>
          rw [hr] at hres
          injection hres with h2
          obtain ⟨g, hg, hgn, hge⟩ := collectRequired_error_inv hr
          have hfg : JsError.missingRequiredField s f = JsError.missingRequiredField s g :=
            h2.symm.trans hge
          injection hfg with h3 h4
          rw [h4]
          exact ⟨hg, hgn⟩
      | ok r => rw [hr] at hres; exact Except.noConfusion hres

/-- C8 witness: the validation characterization applied to concrete
data: an unknown type is rejected with the enumerating message, a code
block without `language` is rejected naming `language`, and a code block
with `language: ""` is accepted. -/
theorem Block.construct_validation_witness :
    Block.construct (.vObj [("id", .vStr "a"), ("type", .vStr "nope")])
      = .error (.invalidType (some (.vStr "nope")))
    ∧ Block.construct (.vObj [("id", .vStr "a"), ("type", .vStr "code")])
      = .error (.missingRequiredField "code" "language")
    ∧ ∃ b, Block.construct (.vObj [("id", .vStr "a"), ("type", .vStr "code"),
        ("language", .vStr "")]) = .ok b := by
  refine ⟨?_, ?_, ?_⟩
  · exact (Block.construct_validation [("id", .vStr "a"), ("type", .vStr "nope")]
      (.vStr "a") rfl rfl).1.mp (by decide)
  · exact ((Block.construct_validation [("id", .vStr "a"), ("type", .vStr "code")]
      (.vStr "a") rfl rfl).2.2 "code" (by decide) rfl).1.1
  · exact ((Block.construct_validation [("id", .vStr "a"), ("type", .vStr "code"),
      ("language", .vStr "")] (.vStr "a") rfl rfl).2.2 "code" (by decide) rfl).1

/-- C10: a Document constructed with a `blocks` option that is present
but not an array (a string, number, boolean, null, or plain object)
raises no error: the non-array value is silently ignored and the
resulting document stores the empty block list. -/
theorem construct_ignores_nonArray_blocks (title : Option Value) (metadata : Option Value)
    (bv : Value) (h : isArr bv = false) :
    BlockDocDocument.construct title metadata (some bv) =
      .ok ⟨⟨title, metadata.getD (.vObj []), []⟩⟩ := by
  rw [BlockDocDocument.construct]
  cases bv <;> simp_all [isArr]

/-- C10 witness: the constructor applied with the concrete non-array
blocks option `"not-an-array"`. -/
theorem construct_ignores_nonArray_blocks_witness :
    BlockDocDocument.construct (some (.vStr "T")) none (some (.vStr "not-an-array")) =
      .ok ⟨⟨some (.vStr "T"), .vObj [], []⟩⟩ :=
  construct_ignores_nonArray_blocks (some (.vStr "T")) none (.vStr "not-an-array") rfl

theorem addExtras_eq_append (built : BlockData) :
    ∀ rest : BlockData, ∃ ex, addExtras built rest = built ++ ex := by
  intro rest
  induction rest generalizing built with
  | nil => exact ⟨[], by simp [addExtras]⟩
  | cons p rest ih =>
      obtain ⟨k, v⟩ := p
      rw [addExtras]
      by_cases h1 : (k == "id" || k == "type" || k == "content") = true
      · rw [if_pos h1]; exact ih built
      · rw [if_neg h1]
        by_cases h2 : (getProp built k).isSome
        · rw [if_pos h2]; exact ih built
        · rw [if_neg h2]
          obtain ⟨ex, hex⟩ := ih (built ++ [(k, v)])
          exact ⟨(k, v) :: ex, by rw [hex, List.append_assoc]; rfl⟩

theorem getProp_cons_self (k : String) (v : Value) (rest : BlockData) :
    getProp ((k, v) :: rest) k = some v := by
  rw [getProp, List.find?_cons_of_pos _ (by simp)]

theorem isAllowedType_true_inv {t : Option Value} (h : isAllowedType t = true) :
    ∃ s, t = some (.vStr s) ∧ s ∈ ALLOWED_TYPES := by
  cases t with
  | none => simp [isAllowedType] at h
  | some v =>
      cases v with
      | vStr s =>
          refine ⟨s, rfl, ?_⟩
          simpa [isAllowedType] using h
      | vNum q => simp [isAllowedType] at h
      | vBool b => simp [isAllowedType] at h
      | vNull => simp [isAllowedType] at h
      | vArr xs => simp [isAllowedType] at h
      | vObj fs => simp [isAllowedType] at h

theorem construct_ok_inv {data blk : BlockData}
    (h : Block.construct (.vObj data) = .ok blk) :
    ∃ idv s req, getProp data "id" = some idv ∧ truthy idv = true
      ∧ getProp data "type" = some (.vStr s) ∧ s ∈ ALLOWED_TYPES
      ∧ collectRequired s data (TYPE_REQUIREMENTS s) = .ok req
      ∧ blk = addExtras ([("id", idv), ("type", .vStr s),
          ("content", match getProp data "content" with
            | some v => if truthy v then v else .vStr ""
            | none => .vStr "")] ++ req) data := by
  rw [Block.construct] at h
  cases hId : getProp data "id" with
  | none => simp [hId] at h
  | some idv =>
      simp only [hId] at h
      by_cases ht : truthy idv = true
      · rw [if_neg (by simp [ht])] at h
        by_cases hAl : isAllowedType (getProp data "type") = true
        · obtain ⟨s, hs, hmem⟩ := isAllowedType_true_inv hAl
          have htr : truthyOpt (getProp data "type") = true := by
            rw [hs]; exact truthy_of_allowed hmem
          rw [if_neg (by simp [hAl, htr])] at h
          have hty : typeStr (getProp data "type") = s := by rw [hs]; rfl
          rw [hty] at h
          cases hr : collectRequired s data (TYPE_REQUIREMENTS s) with
          | error e => rw [hr] at h; exact Except.noConfusion h
          | ok req =>
              rw [hr] at h
              injection h with h2
              exact ⟨idv, s, req, rfl, ht, hs, hmem, hr, h2.symm⟩
        · rw [if_pos (by simp [Bool.not_eq_true] at hAl ⊢; simp [hAl])] at h
          exact Except.noConfusion h
      · rw [if_pos (by simpa using ht)] at h
        exact Except.noConfusion h

theorem construct_ok_id {data blk : BlockData}
    (h : Block.construct (.vObj data) = .ok blk) :
    getProp blk "id" = getProp data "id" := by
  obtain ⟨idv, s, req, hId, -, -, -, -, hblk⟩ := construct_ok_inv h
  obtain ⟨ex, hex⟩ := addExtras_eq_append
    ([("id", idv), ("type", .vStr s),
      ("content", match getProp data "content" with
        | some v => if truthy v then v else .vStr ""
        | none => .vStr "")] ++ req) data
  rw [hblk, hex, hId]
  exact getProp_cons_self "id" idv _

theorem construct_ok_of_nonObj {bv : Value} {blk : BlockData}
    (hno : ∀ data, bv ≠ .vObj data) (h : Block.construct bv = .ok blk) : False := by
  cases bv with
  | vObj fields => exact hno fields rfl
  | vNull => exact Except.noConfusion h
  | vStr s => exact Except.noConfusion h
  | vNum q => exact Except.noConfusion h
  | vBool b => exact Except.noConfusion h
  | vArr xs => exact Except.noConfusion h

theorem addBlock_eq_of_jsGetE {d : BlockDocDocument} {bv : Value} {idv : Option Value}
    (hg : jsGetE bv "id" = .ok idv) :
    BlockDocDocument.addBlock d bv =
      if (BlockDocDocument.getBlock d.article.blocks idv).isSome then
        .error (.duplicateId idv)
      else
        (Block.construct bv).map
          (fun blk => (⟨{ d.article with blocks := d.article.blocks ++ [blk] }⟩, blk)) := by
  rw [BlockDocDocument.addBlock, hg, exceptOk_bind]
  by_cases h : (BlockDocDocument.getBlock d.article.blocks idv).isSome
  · rw [if_pos h, if_pos h]
  · rw [if_neg h, if_neg h]
    cases hc : Block.construct bv with
    | error e => rw [exceptError_bind]; rfl
    | ok blk => rw [exceptOk_bind]; rfl

theorem addBlock_ok_inv {d d2 : BlockDocDocument} {bv : Value} {blk : BlockData}
    (h : BlockDocDocument.addBlock d bv = .ok (d2, blk)) :
    Block.construct bv = .ok blk
    ∧ d2.article.blocks = d.article.blocks ++ [blk]
    ∧ ∀ b ∈ d.article.blocks, getProp b "id" ≠ getProp blk "id" := by
  cases bv with
  | vNull => exact Except.noConfusion h
  | vObj data =>
      rw [addBlock_eq_of_jsGetE
        (show jsGetE (Value.vObj data) "id" = Except.ok (getProp data "id") from rfl)] at h
      by_cases hc : (BlockDocDocument.getBlock d.article.blocks (getProp data "id")).isSome
      · rw [if_pos hc] at h; exact Except.noConfusion h
      · rw [if_neg hc] at h
        cases hcc : Block.construct (Value.vObj data) with
        | error e => rw [hcc] at h; exact Except.noConfusion h
        | ok blk2 =>
            rw [hcc] at h
            simp only [Except.map] at h
            injection h with h2
            injection h2 with h3 h4
            have hnone : BlockDocDocument.getBlock d.article.blocks (getProp data "id") = none :=
              Option.not_isSome_iff_eq_none.mp hc
            have hids := getBlock_eq_none_iff.mp hnone
            have hbid := construct_ok_id hcc
            refine ⟨by rw [h4], by rw [← h3, ← h4], fun b hb => ?_⟩
            rw [← h4, hbid]
            exact hids b hb
  | vStr s =>
      rw [addBlock_eq_of_jsGetE
        (show jsGetE (Value.vStr s) "id" = Except.ok none from rfl)] at h
      by_cases hc : (BlockDocDocument.getBlock d.article.blocks none).isSome
      · rw [if_pos hc] at h; exact Except.noConfusion h
      · rw [if_neg hc] at h; exact Except.noConfusion h
  | vNum q =>
      rw [addBlock_eq_of_jsGetE
        (show jsGetE (Value.vNum q) "id" = Except.ok none from rfl)] at h
      by_cases hc : (BlockDocDocument.getBlock d.article.blocks none).isSome
      · rw [if_pos hc] at h; exact Except.noConfusion h
      · rw [if_neg hc] at h; exact Except.noConfusion h
  | vBool b =>
      rw [addBlock_eq_of_jsGetE
        (show jsGetE (Value.vBool b) "id" = Except.ok none from rfl)] at h
      by_cases hc : (BlockDocDocument.getBlock d.article.blocks none).isSome
      · rw [if_pos hc] at h; exact Except.noConfusion h
      · rw [if_neg hc] at h; exact Except.noConfusion h
  | vArr xs =>
      rw [addBlock_eq_of_jsGetE
        (show jsGetE (Value.vArr xs) "id" = Except.ok none from rfl)] at h
      by_cases hc : (BlockDocDocument.getBlock d.article.blocks none).isSome
      · rw [if_pos hc] at h; exact Except.noConfusion h
      · rw [if_neg hc] at h; exact Except.noConfusion h

theorem insertBlock_ok_inv {d d2 : BlockDocDocument} {bv : Value} {pos : Int} {blk : BlockData}
    (h : BlockDocDocument.insertBlock d bv pos = .ok (d2, blk)) :
    Block.construct bv = .ok blk
    ∧ d2.article.blocks = d.article.blocks.insertIdx
        (BlockDocDocument.spliceIndex d.article.blocks.length pos) blk
    ∧ ∀ b ∈ d.article.blocks, getProp b "id" ≠ getProp blk "id" := by
  have hmain : ∀ (idv : Option Value), jsGetE bv "id" = .ok idv →
      BlockDocDocument.insertBlock d bv pos =
        if (BlockDocDocument.getBlock d.article.blocks idv).isSome then
          .error (.duplicateId idv)
        else
          (Block.construct bv).map
            (fun b2 => (⟨{ d.article with blocks := d.article.blocks.insertIdx (BlockDocDocument.spliceIndex d.article.blocks.length pos) b2 }⟩, b2)) := by
    intro idv hg
    rw [BlockDocDocument.insertBlock, hg, exceptOk_bind]
    by_cases hc : (BlockDocDocument.getBlock d.article.blocks idv).isSome
    · rw [if_pos hc, if_pos hc]
    · rw [if_neg hc, if_neg hc]
      cases hcc : Block.construct bv with
      | error e => rw [exceptError_bind]; rfl
      | ok blk2 => rw [exceptOk_bind]; rfl
  cases bv with
  | vNull => exact Except.noConfusion h
  | vObj data =>
      rw [hmain (getProp data "id") rfl] at h
      by_cases hc : (BlockDocDocument.getBlock d.article.blocks (getProp data "id")).isSome
      · rw [if_pos hc] at h; exact Except.noConfusion h
      · rw [if_neg hc] at h
        cases hcc : Block.construct (Value.vObj data) with
        | error e => rw [hcc] at h; exact Except.noConfusion h
        | ok blk2 =>
            rw [hcc] at h
            simp only [Except.map] at h
            injection h with h2
            injection h2 with h3 h4
            have hnone : BlockDocDocument.getBlock d.article.blocks (getProp data "id") = none :=
              Option.not_isSome_iff_eq_none.mp hc
            have hids := getBlock_eq_none_iff.mp hnone
            have hbid := construct_ok_id hcc
            refine ⟨by rw [h4], by rw [← h3, ← h4], fun b hb => ?_⟩
            rw [← h4, hbid]
            exact hids b hb
  | vStr s =>
      rw [hmain none rfl] at h
      by_cases hc : (BlockDocDocument.getBlock d.article.blocks none).isSome
      · rw [if_pos hc] at h; exact Except.noConfusion h
      · rw [if_neg hc] at h; exact Except.noConfusion h
  | vNum q =>
      rw [hmain none rfl] at h
      by_cases hc : (BlockDocDocument.getBlock d.article.blocks none).isSome
      · rw [if_pos hc] at h; exact Except.noConfusion h
      · rw [if_neg hc] at h; exact Except.noConfusion h
  | vBool b =>
      rw [hmain none rfl] at h
      by_cases hc : (BlockDocDocument.getBlock d.article.blocks none).isSome
      · rw [if_pos hc] at h; exact Except.noConfusion h
      · rw [if_neg hc] at h; exact Except.noConfusion h
  | vArr xs =>
      rw [hmain none rfl] at h
      by_cases hc : (BlockDocDocument.getBlock d.article.blocks none).isSome
      · rw [if_pos hc] at h; exact Except.noConfusion h
      · rw [if_neg hc] at h; exact Except.noConfusion h

theorem findIndexById_some_inv {blocks : List BlockData} {id : Option Value} {i : ℕ}
    (h : BlockDocDocument.findIndexById blocks id = some i) :
    ∃ hlt : i < blocks.length, getProp blocks[i] "id" = id := by
  rw [BlockDocDocument.findIndexById] at h
  obtain ⟨hlt, hp, -⟩ := List.findIdx?_eq_some_iff_getElem.mp h
  exact ⟨hlt, (jsEqOpt_iff _ _).mp hp⟩

theorem updateBlock_ok_inv {d d2 : BlockDocDocument} {id : Value} {upd blk : BlockData}
    (h : BlockDocDocument.updateBlock d id upd = .ok (d2, blk)) :
    ∃ i, ∃ hlt : i < d.article.blocks.length,
      BlockDocDocument.findIndexById d.article.blocks (some id) = some i
      ∧ Block.construct (.vObj (BlockDocDocument.jsMerge d.article.blocks[i] upd)) = .ok blk
      ∧ d2.article.blocks = d.article.blocks.set i blk := by
  rw [BlockDocDocument.updateBlock] at h
  cases hf : BlockDocDocument.findIndexById d.article.blocks (some id) with
  | none => rw [hf] at h; exact Except.noConfusion h
  | some i =>
      simp only [hf] at h
      obtain ⟨hlt, -⟩ := findIndexById_some_inv hf
      have hget : (d.article.blocks[i]?).getD [] = d.article.blocks[i] := by
        rw [List.getElem?_eq_getElem hlt]
        rfl
      rw [hget] at h
      cases hcc : Block.construct (.vObj (BlockDocDocument.jsMerge d.article.blocks[i] upd)) with
      | error e => rw [hcc] at h; exact Except.noConfusion h
      | ok blk2 =>
          rw [hcc] at h
          injection h with h2
          injection h2 with h3 h4
          exact ⟨i, hlt, rfl, by rw [h4] at hcc; exact hcc, by rw [← h3, ← h4]⟩

theorem moveBlock_ok_inv {d d2 : BlockDocDocument} {id : Value} {p : Int} {r : Bool}
    (h : BlockDocDocument.moveBlock d id p = .ok (d2, r)) :
    (BlockDocDocument.findIndexById d.article.blocks (some id) = none ∧ d2 = d ∧ r = false)
    ∨ (∃ i, ∃ hlt : i < d.article.blocks.length,
        BlockDocDocument.findIndexById d.article.blocks (some id) = some i
        ∧ ¬ (p < 0 ∨ (d.article.blocks.length : Int) ≤ p)
        ∧ r = true
        ∧ d2.article.blocks =
            (d.article.blocks.eraseIdx i).insertIdx p.toNat d.article.blocks[i]) := by
  rw [BlockDocDocument.moveBlock] at h
  cases hf : BlockDocDocument.findIndexById d.article.blocks (some id) with
  | none =>
      rw [hf] at h
      injection h with h2
      injection h2 with h3 h4
      exact Or.inl ⟨rfl, h3.symm, h4.symm⟩
  | some i =>
      simp only [hf] at h
      obtain ⟨hlt, -⟩ := findIndexById_some_inv hf
      by_cases hb : (decide (p < 0) || decide ((d.article.blocks.length : Int) ≤ p)) = true
      · rw [if_pos hb] at h; exact Except.noConfusion h
      · rw [if_neg hb] at h
        have hget : (d.article.blocks[i]?).getD [] = d.article.blocks[i] := by
          rw [List.getElem?_eq_getElem hlt]
          rfl
        rw [hget] at h
        injection h with h2
        injection h2 with h3 h4
        refine Or.inr ⟨i, hlt, rfl, ?_, h4.symm, by rw [← h3]⟩
        simp only [Bool.or_eq_true, decide_eq_true_eq, not_or] at hb
        rw [not_or]
        exact hb

/-! ## Claims C1, C5, C6 -/

/-- C1 counterexample: on a document whose stored blocks have the
pairwise-distinct ids `a` and `b`, the single mutating operation
`updateBlock("a", {id: "b"})` returns normally and leaves two stored
blocks with the same id `b` — the distinct-ids invariant is not preserved
by `updateBlock`, because the shallow merge does not exclude `id`. -/
theorem updateBlock_breaks_distinct_ids :
    (blockIds [[("id", Value.vStr "a"), ("type", Value.vStr "text"), ("content", Value.vStr "ca")],
      [("id", Value.vStr "b"), ("type", Value.vStr "text"), ("content", Value.vStr "cb")]]).Nodup
    ∧ BlockDocDocument.updateBlock
        ⟨⟨some (.vStr "T"), .vObj [],
          [[("id", .vStr "a"), ("type", .vStr "text"), ("content", .vStr "ca")],
           [("id", .vStr "b"), ("type", .vStr "text"), ("content", .vStr "cb")]]⟩⟩
        (.vStr "a") [("id", .vStr "b")] =
      .ok (⟨⟨some (.vStr "T"), .vObj [],
          [[("id", .vStr "b"), ("type", .vStr "text"), ("content", .vStr "ca")],
           [("id", .vStr "b"), ("type", .vStr "text"), ("content", .vStr "cb")]]⟩⟩,
        [("id", .vStr "b"), ("type", .vStr "text"), ("content", .vStr "ca")])
    ∧ ¬ (blockIds [[("id", Value.vStr "b"), ("type", Value.vStr "text"), ("content", Value.vStr "ca")],
      [("id", Value.vStr "b"), ("type", Value.vStr "text"), ("content", Value.vStr "cb")]]).Nodup := by
  refine ⟨by decide, by rfl, by decide⟩

/-- C1 (amended): on a document with pairwise-distinct stored block ids,
`addBlock`, `insertBlock`, `removeBlock` and `moveBlock` preserve the
distinctness (the source throws before mutating, so a raising call leaves
the stored blocks unchanged, which the functional embedding models by
returning no new state on error); `updateBlock` preserves it provided the
merged projection's id does not collide with a different stored block —
that is, any stored block sharing the new projection's id must be the
updated block itself. -/
theorem mutations_preserve_distinct_ids (d : BlockDocDocument)
    (hnd : (blockIds d.article.blocks).Nodup) :
    (∀ bv d2 blk, BlockDocDocument.addBlock d bv = .ok (d2, blk) →
        (blockIds d2.article.blocks).Nodup)
    ∧ (∀ bv pos d2 blk, BlockDocDocument.insertBlock d bv pos = .ok (d2, blk) →
        (blockIds d2.article.blocks).Nodup)
    ∧ (∀ id, (blockIds (BlockDocDocument.removeBlock d id).1.article.blocks).Nodup)
    ∧ (∀ id pos d2 r, BlockDocDocument.moveBlock d id pos = .ok (d2, r) →
        (blockIds d2.article.blocks).Nodup)
    ∧ (∀ id upd d2 blk, BlockDocDocument.updateBlock d id upd = .ok (d2, blk) →
        (∀ b ∈ d.article.blocks, getProp b "id" = getProp blk "id" →
          getProp b "id" = some id) →
        (blockIds d2.article.blocks).Nodup) := by
  simp only [blockIds] at hnd
  refine ⟨?_, ?_, ?_, ?_, ?_⟩
  · intro bv d2 blk h
    obtain ⟨-, hblocks, hfresh⟩ := addBlock_ok_inv h
    simp only [blockIds, hblocks, List.map_append, List.nodup_append]
    refine ⟨hnd, List.nodup_singleton _, ?_⟩
    intro a ha hamem
    simp only [List.map_cons, List.map_nil, List.mem_singleton] at hamem
    obtain ⟨b, hb, hfb⟩ := List.mem_map.mp ha
    exact hfresh b hb (by rw [hfb, hamem])
  · intro bv pos d2 blk h
    obtain ⟨-, hblocks, hfresh⟩ := insertBlock_ok_inv h
    simp only [blockIds, hblocks, map_insertIdx]
    refine nodup_insertIdx _ _ hnd ?_
    intro hmem
    obtain ⟨b, hb, hfb⟩ := List.mem_map.mp hmem
    exact hfresh b hb hfb
  · intro id
    rw [BlockDocDocument.removeBlock]
    cases hf : BlockDocDocument.findIndexById d.article.blocks (some id) with
    | none => simpa [blockIds] using hnd
    | some i =>
        simp only [blockIds, map_eraseIdx]
        exact (List.eraseIdx_sublist _ i).nodup hnd
  · intro id pos d2 r h
    rcases moveBlock_ok_inv h with ⟨-, rfl, -⟩ | ⟨i, hlt, -, -, -, hblocks⟩
    · simpa [blockIds] using hnd
    · simp only [blockIds, hblocks, map_insertIdx, map_eraseIdx]
      have hlen : i < (d.article.blocks.map (fun b => getProp b "id")).length := by
        simpa using hlt
      refine nodup_insertIdx _ _ ((List.eraseIdx_sublist _ i).nodup hnd) ?_
      have hgm : getProp d.article.blocks[i] "id" =
          (d.article.blocks.map (fun b => getProp b "id"))[i] := by
        rw [List.getElem_map]
      rw [hgm]
      exact not_mem_eraseIdx_self _ i hlen hnd
  · intro id upd d2 blk h hproviso
    obtain ⟨i, hlt, hf, hcc, hblocks⟩ := updateBlock_ok_inv h
    simp only [blockIds, hblocks, List.map_set]
    by_cases hmem : getProp blk "id" ∈ d.article.blocks.map (fun b => getProp b "id")
    · obtain ⟨b, hb, hfb⟩ := List.mem_map.mp hmem
      have hbid : getProp b "id" = some id := hproviso b hb hfb
      obtain ⟨hlt2, hidi⟩ := findIndexById_some_inv hf
      have hlen : i < (d.article.blocks.map (fun b => getProp b "id")).length := by
        simpa using hlt
      have hkey : getProp blk "id" =
          (d.article.blocks.map (fun b => getProp b "id"))[i] := by
        rw [List.getElem_map, hidi, ← hbid, hfb]
      rw [hkey, set_getElem_self _ i hlen]
      exact hnd
    · exact List.Nodup.set hnd hmem

/-- C1 witness: the amended preservation theorem applied to a concrete
two-block document: a successful `addBlock` of a fresh id and a
successful in-bounds `moveBlock` both leave the stored ids
pairwise-distinct. -/
theorem mutations_preserve_distinct_ids_witness :
    (blockIds (⟨⟨some (.vStr "T"), .vObj [],
        [[("id", Value.vStr "a"), ("type", Value.vStr "text"), ("content", Value.vStr "ca")],
         [("id", Value.vStr "b"), ("type", Value.vStr "text"), ("content", Value.vStr "cb")]]⟩⟩ :
          BlockDocDocument).article.blocks).Nodup
    ∧ ∀ d2 blk, BlockDocDocument.addBlock
        ⟨⟨some (.vStr "T"), .vObj [],
          [[("id", .vStr "a"), ("type", .vStr "text"), ("content", .vStr "ca")],
           [("id", .vStr "b"), ("type", .vStr "text"), ("content", .vStr "cb")]]⟩⟩
        (.vObj [("id", .vStr "c"), ("type", .vStr "divider")]) = .ok (d2, blk) →
        (blockIds d2.article.blocks).Nodup :=
  ⟨by decide, (mutations_preserve_distinct_ids _ (by decide)).1 _⟩

/-- C5: `addBlock` with an id equal to a stored block's id always fails
with the duplicate-id error; with a fresh id its result is exactly the
`Block` construction outcome; and the only success shape appends exactly
the one fully-constructed projection.  Both `throw` sites in the source
precede the `push`, so a failed call appends nothing — the embedding
models this by returning no new state on error. -/
theorem addBlock_spec (d : BlockDocDocument) (data : BlockData) :
    ((∃ b ∈ d.article.blocks, getProp b "id" = getProp data "id") →
      BlockDocDocument.addBlock d (.vObj data) = .error (.duplicateId (getProp data "id")))
    ∧ ((∀ b ∈ d.article.blocks, getProp b "id" ≠ getProp data "id") →
      BlockDocDocument.addBlock d (.vObj data) =
        (Block.construct (.vObj data)).map
          (fun blk => (⟨{ d.article with blocks := d.article.blocks ++ [blk] }⟩, blk)))
    ∧ (∀ d2 blk, BlockDocDocument.addBlock d (.vObj data) = .ok (d2, blk) →
        Block.construct (.vObj data) = .ok blk
        ∧ d2.article.blocks = d.article.blocks ++ [blk]) := by
  refine ⟨?_, ?_, ?_⟩
  · intro hex
    rw [addBlock_eq, if_pos (getBlock_isSome_iff.mpr hex)]
  · intro hall
    have hno : ¬ (BlockDocDocument.getBlock d.article.blocks (getProp data "id")).isSome = true := by
      rw [getBlock_isSome_iff]
      rintro ⟨b, hb, he⟩
      exact hall b hb he
    rw [addBlock_eq, if_neg hno]
  · intro d2 blk h
    exact ⟨(addBlock_ok_inv h).1, (addBlock_ok_inv h).2.1⟩

/-- C5 witness: on a concrete one-block document, adding a block with
the stored id fails with the duplicate-id error, and a failed add (here
with a construction error as well) appends nothing, while the success
case appends exactly one entry. -/
theorem addBlock_spec_witness :
    BlockDocDocument.addBlock
      ⟨⟨some (.vStr "T"), .vObj [],
        [[("id", .vStr "a"), ("type", .vStr "text"), ("content", .vStr "hi")]]⟩⟩
      (.vObj [("id", .vStr "a"), ("type", .vStr "code")]) =
      .error (.duplicateId (some (.vStr "a"))) :=
  (addBlock_spec
    ⟨⟨some (.vStr "T"), .vObj [],
      [[("id", .vStr "a"), ("type", .vStr "text"), ("content", .vStr "hi")]]⟩⟩
    [("id", .vStr "a"), ("type", .vStr "code")]).1 (by decide)

/-- C6: `moveBlock` returns `false` and leaves the document unchanged
when the id is not found (even for an out-of-range position, since the
not-found check runs first); when the id is found at index `i`, a
position outside `[0, length-1]` always raises the invalid-position
error (the throw precedes both splices, so the stored order is
unchanged), and an in-bounds move removes the block and re-inserts it at
the new index — erasing the moved block from its landing position
restores exactly the original order of the other blocks. -/
theorem moveBlock_spec (d : BlockDocDocument) (id : Value) (p : Int) :
    (BlockDocDocument.findIndexById d.article.blocks (some id) = none →
      BlockDocDocument.moveBlock d id p = .ok (d, false))
    ∧ (∀ i, BlockDocDocument.findIndexById d.article.blocks (some id) = some i →
        ((p < 0 ∨ (d.article.blocks.length : Int) ≤ p) →
          BlockDocDocument.moveBlock d id p = .error (.invalidPosition p))
        ∧ (0 ≤ p → p < (d.article.blocks.length : Int) →
            ∃ hlt : i < d.article.blocks.length,
              BlockDocDocument.moveBlock d id p =
                .ok (⟨{ d.article with blocks := (d.article.blocks.eraseIdx i).insertIdx p.toNat d.article.blocks[i] }⟩, true)
              ∧ ((d.article.blocks.eraseIdx i).insertIdx p.toNat d.article.blocks[i]).eraseIdx p.toNat
                  = d.article.blocks.eraseIdx i)) := by
  constructor
  · intro hf
    rw [BlockDocDocument.moveBlock]
    simp only [hf]
  · intro i hf
    obtain ⟨hlt, -⟩ := findIndexById_some_inv hf
    constructor
    · intro hout
      rw [BlockDocDocument.moveBlock]
      simp only [hf]
      rw [if_pos (by rcases hout with hc | hc <;> simp [hc])]
    · intro h0 hlen
      refine ⟨hlt, ?_, List.eraseIdx_insertIdx p.toNat _⟩
      rw [BlockDocDocument.moveBlock]
      simp only [hf]
      rw [if_neg (by simp; omega)]
      rw [List.getElem?_eq_getElem hlt]
      rfl

/-- C6 witness: on a concrete two-block document, moving the first block
to position 5 (outside `[0,1]`) raises the invalid-position error;
moving a missing id returns `false` unchanged; and moving block `a` to
position 1 succeeds. -/
theorem moveBlock_spec_witness :
    BlockDocDocument.moveBlock
      ⟨⟨some (.vStr "T"), .vObj [],
        [[("id", .vStr "a"), ("type", .vStr "text"), ("content", .vStr "ca")],
         [("id", .vStr "b"), ("type", .vStr "text"), ("content", .vStr "cb")]]⟩⟩
      (.vStr "a") 5 = .error (.invalidPosition 5)
    ∧ BlockDocDocument.moveBlock
      ⟨⟨some (.vStr "T"), .vObj [],
        [[("id", .vStr "a"), ("type", .vStr "text"), ("content", .vStr "ca")],
         [("id", .vStr "b"), ("type", .vStr "text"), ("content", .vStr "cb")]]⟩⟩
      (.vStr "zz") 5 =
        .ok (⟨⟨some (.vStr "T"), .vObj [],
          [[("id", .vStr "a"), ("type", .vStr "text"), ("content", .vStr "ca")],
           [("id", .vStr "b"), ("type", .vStr "text"), ("content", .vStr "cb")]]⟩⟩, false) :=
  ⟨((moveBlock_spec
      ⟨⟨some (.vStr "T"), .vObj [],
        [[("id", .vStr "a"), ("type", .vStr "text"), ("content", .vStr "ca")],
         [("id", .vStr "b"), ("type", .vStr "text"), ("content", .vStr "cb")]]⟩⟩
      (.vStr "a") 5).2 0 (by decide)).1 (by decide),
   (moveBlock_spec
      ⟨⟨some (.vStr "T"), .vObj [],
        [[("id", .vStr "a"), ("type", .vStr "text"), ("content", .vStr "ca")],
         [("id", .vStr "b"), ("type", .vStr "text"), ("content", .vStr "cb")]]⟩⟩
      (.vStr "zz") 5).1 (by decide)⟩

/-! ## Claim C3 (serialization round-trip) -/

/-- C3 counterexample: a document constructed with `metadata: null` (a
value the constructor accepts unchanged) does not round-trip: `fromJSON`
rebuilds it with `metadata: {}` because of the `data.article.metadata || {}`
fallback, so the reloaded document's `toJSON()` differs from the
original's. -/
theorem fromJSON_toJSON_not_roundtrip :
    BlockDocDocument.construct (some (.vStr "t")) (some .vNull) none =
      .ok ⟨⟨some (.vStr "t"), .vNull, []⟩⟩
    ∧ BlockDocDocument.fromJSON (BlockDocDocument.toJSON ⟨⟨some (.vStr "t"), .vNull, []⟩⟩) =
        .ok ⟨⟨some (.vStr "t"), .vObj [], []⟩⟩
    ∧ BlockDocDocument.toJSON ⟨⟨some (.vStr "t"), .vObj [], []⟩⟩ ≠
        BlockDocDocument.toJSON ⟨⟨some (.vStr "t"), .vNull, []⟩⟩ :=
  ⟨rfl, rfl, by decide⟩

theorem foldlM_addBlock_of_fixpoints (title : Option Value) (md : Value) :
    ∀ (rest done : List BlockData),
      (∀ b ∈ rest, Block.construct (.vObj b) = .ok b) →
      (((done ++ rest).map (fun b => getProp b "id")).Nodup) →
      (rest.map Value.vObj).foldlM
        (fun d bv => (BlockDocDocument.addBlock d bv).map Prod.fst)
        (⟨⟨title, md, done⟩⟩ : BlockDocDocument) = .ok ⟨⟨title, md, done ++ rest⟩⟩ := by
  intro rest
  induction rest with
  | nil =>
      intro done _ _
      simp only [List.map_nil, List.foldlM_nil, List.append_nil]
      rfl
  | cons b rest ih =>
      intro done hfix hnd
      have hfresh : ∀ x ∈ done, getProp x "id" ≠ getProp b "id" := by
        intro x hx heq
        rw [List.map_append, List.nodup_append] at hnd
        exact hnd.2.2 (List.mem_map.mpr ⟨x, hx, rfl⟩)
          (by simp only [List.map_cons, List.mem_cons]; exact Or.inl heq)
      have hstep : Except.map Prod.fst (BlockDocDocument.addBlock
            (⟨⟨title, md, done⟩⟩ : BlockDocDocument) (.vObj b)) =
          .ok (⟨⟨title, md, done ++ [b]⟩⟩ : BlockDocDocument) := by
        have hs : BlockDocDocument.addBlock (⟨⟨title, md, done⟩⟩ : BlockDocDocument)
            (.vObj b) = .ok (⟨⟨title, md, done ++ [b]⟩⟩, b) := by
          rw [addBlock_eq]
          have hno : ¬ (BlockDocDocument.getBlock done (getProp b "id")).isSome = true := by
            rw [getBlock_isSome_iff]
            rintro ⟨x, hx, he⟩
            exact hfresh x hx he
          rw [if_neg hno, hfix b (by simp)]
          rfl
        rw [hs]
        rfl
      rw [List.map_cons, List.foldlM_cons, hstep, exceptOk_bind]
      have := ih (done ++ [b])
        (fun x hx => hfix x (by simp [hx]))
        (by rw [List.append_assoc]; simpa using hnd)
      rw [this, List.append_assoc]
      rfl

/-- C3 (amended): the round-trip holds for every document whose
metadata is truthy, whose stored block ids are pairwise distinct, and
whose stored blocks are fixed points of Block construction (all three
hold for documents built and mutated through the construct/add/update
API unless updateBlock id-collisions were forced): `fromJSON` of the
serialized value re-validates every block and rebuilds an identical
document. The JSON-string leg (`toString` then `JSON.parse`) is the host
library's serialization, which is the identity on the JSON value
`toJSON()` describes. -/
theorem fromJSON_toJSON_roundtrip (d : BlockDocDocument)
    (hmd : truthy d.article.metadata = true)
    (hnd : (blockIds d.article.blocks).Nodup)
    (hfix : ∀ b ∈ d.article.blocks, Block.construct (.vObj b) = .ok b) :
    BlockDocDocument.fromJSON (BlockDocDocument.toJSON d) = .ok d := by
  obtain ⟨⟨title, md, blocks⟩⟩ := d
  simp only [blockIds] at hnd
  have key := foldlM_addBlock_of_fixpoints title md blocks [] hfix (by simpa using hnd)
  have hred : BlockDocDocument.fromJSON (BlockDocDocument.toJSON ⟨⟨title, md, blocks⟩⟩) =
      BlockDocDocument.construct title (some (jsOr (some md) (.vObj [])))
        (some (jsOr (some (.vArr (blocks.map .vObj))) (.vArr []))) := by
    cases title with
    | some tv => rfl
    | none => rfl
  rw [hred]
  have hmd2 : jsOr (some md) (.vObj []) = md := by
    rw [jsOr, if_pos hmd]
  rw [hmd2]
  have hbl : jsOr (some (.vArr (blocks.map .vObj))) (.vArr []) = .vArr (blocks.map .vObj) := rfl
  rw [hbl, BlockDocDocument.construct]
  simp only [Option.getD_some]
  rw [key]
  rfl

/-- C3 witness: the amended round-trip applied to a concrete document
with one text block. -/
theorem fromJSON_toJSON_roundtrip_witness :
    BlockDocDocument.fromJSON (BlockDocDocument.toJSON
      ⟨⟨some (.vStr "T"), .vObj [],
        [[("id", .vStr "a"), ("type", .vStr "text"), ("content", .vStr "hi")]]⟩⟩) =
      .ok ⟨⟨some (.vStr "T"), .vObj [],
        [[("id", .vStr "a"), ("type", .vStr "text"), ("content", .vStr "hi")]]⟩⟩ :=
  fromJSON_toJSON_roundtrip
    ⟨⟨some (.vStr "T"), .vObj [],
      [[("id", .vStr "a"), ("type", .vStr "text"), ("content", .vStr "hi")]]⟩⟩
    (by decide) (by decide) (by decide)

/-! ## Claim C4 (heading level rendering) -/

/-- C4 counterexample: for the string level `"3"` both renderers emit
heading level 3 (`parseInt("3") = 3`), while the claim says a non-numeric
(non-number-typed) or absent level renders as level 2: the rendered
hashtag count and `<hN>` tag refute the claim.  (Numeric levels diverge
from the claim too: `parseInt` truncates `2.5` to 2 where the claim's
`round` gives 3.) -/
theorem heading_level_claim_counterexample :
    renderHeadingBlockToMarkdown
      (.vObj [("level", .vStr "3"), ("content", .vStr "X")]) = "### X"
    ∧ renderHeadingBlock
      (.vObj [("level", .vStr "3"), ("content", .vStr "X")]) = "<h3>X</h3>"
    ∧ specHeadingLevelClaim (some (.vStr "3")) = 2
    ∧ String.mk (List.replicate (specHeadingLevelClaim (some (.vStr "3"))).toNat
        (Char.ofNat 35)) ++ " X" = "## X"
    ∧ ("### X" : String) ≠ "## X" := by
  refine ⟨by decide, by decide, by decide, by decide, by decide⟩

/-- C4 (amended): for every heading block, both renderers emit the
heading level `min(max(parseInt(String(v)) or 2, 1), 6)` — `parseInt` of
the level's string form (truncation for numbers, digit-prefix parsing
for strings) rather than `round`, with `NaN` and `0` falling back to 2:
the Markdown dispatch emits exactly that many `#` characters, a space
and the content; the HTML dispatch emits the data-attribute wrapper
around `<hN>…</hN>` with the escaped content; the clamped level always
lies in `[1,6]`, is 2 whenever `parseInt` gives `NaN` or `0` (so an
absent level, or one whose string form has no parsable integer prefix,
renders as level 2), and equals `min(max(k,1),6)` when `parseInt` gives
`k ≠ 0`. -/
theorem heading_level_rendering (H : HtmlHost) (o : List (String × Value))
    (hty : getProp o "type" = some (.vStr "heading")) :
    renderBlockToMarkdown (.vObj o) =
      .ok (some (.vStr (String.mk (List.replicate (validLevel (getProp o "level")) (Char.ofNat 35))
        ++ " " ++ jsToStringOpt (getProp o "content"))))
    ∧ renderBlock H (.vObj o) =
      .ok ("<div class=\"blockdoc-block blockdoc-" ++ jsToStringOpt (some (.vStr "heading"))
        ++ "\" data-block-id=\"" ++ jsToStringOpt (getProp o "id")
        ++ "\" data-block-type=\"" ++ jsToStringOpt (some (.vStr "heading")) ++ "\">"
        ++ renderHeadingBlock (.vObj o) ++ "</div>")
    ∧ renderHeadingBlock (.vObj o) =
        "<h" ++ toString (validLevel (getProp o "level")) ++ ">"
          ++ sanitizeHtmlV (getProp o "content")
          ++ "</h" ++ toString (validLevel (getProp o "level")) ++ ">"
    ∧ 1 ≤ validLevel (getProp o "level")
    ∧ validLevel (getProp o "level") ≤ 6
    ∧ ((jsParseInt (getProp o "level") = none ∨ jsParseInt (getProp o "level") = some 0) →
        validLevel (getProp o "level") = 2)
    ∧ (∀ k : Int, jsParseInt (getProp o "level") = some k → k ≠ 0 →
        (validLevel (getProp o "level") : Int) = min (max k 1) 6) := by
  refine ⟨?_, ?_, ?_, ?_, ?_, ?_, ?_⟩
  · rw [renderBlockToMarkdown.eq_def]
    simp only [jsGet, hty]
    rfl
  · rw [renderBlock.eq_def]
    simp only [jsGet, hty]
    rfl
  · rfl
  · simp only [validLevel]
    cases hk : jsParseInt (getProp o "level") with
    | none => simp
    | some k =>
        by_cases hk0 : k = 0
        · simp [hk0]
        · simp only [hk0, if_false]
          omega
  · simp only [validLevel]
    cases hk : jsParseInt (getProp o "level") with
    | none => simp
    | some k =>
        by_cases hk0 : k = 0
        · simp [hk0]
        · simp only [hk0, if_false]
          omega
  · intro hcase
    simp only [validLevel]
    rcases hcase with hk | hk <;> simp [hk]
  · intro k hk hk0
    simp only [validLevel, hk]
    rw [if_neg hk0]
    omega

/-- C4 witness: the amended heading-level theorem applied at a concrete
heading block whose level `"2"` parses to 2, yielding two hashtag
characters. -/
theorem heading_level_rendering_witness :
    renderBlockToMarkdown (.vObj [("type", .vStr "heading"), ("level", .vStr "2"),
      ("content", .vStr "X")]) = .ok (some (.vStr "## X")) := by
  have h := (heading_level_rendering
    ⟨fun _ => .error (), fun _ => false, fun _ _ => .error (), fun _ => .error (),
      fun _ => none⟩
    [("type", .vStr "heading"), ("level", .vStr "2"), ("content", .vStr "X")] rfl).1
  rw [h]
  decide

/-! ## Renderer robustness lemmas and claim C7 -/

theorem mapM_error_of {ε α β : Type} {f : α → Except ε β} {bad : ε}
    (hf : ∀ a e, f a = .error e → e = bad) :
    ∀ (xs : List α) (e : ε), xs.mapM f = .error e → e = bad := by
  intro xs
  induction xs with
  | nil => intro e h; rw [List.mapM_nil] at h; exact Except.noConfusion h
  | cons x xs ih =>
      intro e h
      rw [List.mapM_cons] at h
      cases hx : f x with
      | error e2 =>
          rw [hx, exceptError_bind] at h
          injection h with h2
          exact h2.symm ▸ hf x e2 hx
      | ok y =>
          rw [hx, exceptOk_bind] at h
          cases hxs : xs.mapM f with
          | error e3 =>
              rw [hxs, exceptError_bind] at h
              injection h with h2
              exact h2.symm ▸ ih e3 hxs
          | ok ys => rw [hxs, exceptOk_bind] at h; exact Except.noConfusion h

theorem mapM_append_ok {ε α β : Type} {f : α → Except ε β} {pre post : List α}
    {ms1 ms2 : List β} {b : α} {y : β}
    (h1 : pre.mapM f = .ok ms1) (hb : f b = .ok y) (h2 : post.mapM f = .ok ms2) :
    (pre ++ b :: post).mapM f = .ok (ms1 ++ y :: ms2) := by
  induction pre generalizing ms1 with
  | nil =>
      rw [List.mapM_nil] at h1
      injection h1 with h1
      rw [← h1, List.nil_append, List.nil_append, List.mapM_cons, hb, exceptOk_bind, h2,
        exceptOk_bind]
      rfl
  | cons x xs ih =>
      rw [List.mapM_cons] at h1
      cases hx : f x with
      | error e2 => rw [hx, exceptError_bind] at h1; exact Except.noConfusion h1
      | ok x2 =>
          rw [hx, exceptOk_bind] at h1
          cases hxs : xs.mapM f with
          | error e3 => rw [hxs, exceptError_bind] at h1; exact Except.noConfusion h1
          | ok ms1x =>
              rw [hxs, exceptOk_bind] at h1
              injection h1 with h1
              rw [← h1, List.cons_append, List.mapM_cons, hx, exceptOk_bind, ih hxs,
                exceptOk_bind]
              rfl

theorem renderQuoteBlockToMarkdown_error_inv {b : Value} {e : JsError}
    (h : renderQuoteBlockToMarkdown b = .error e) : e = .hostError := by
  rw [renderQuoteBlockToMarkdown.eq_def] at h
  split at h
  · exact Except.noConfusion h
  · injection h with h2
    exact h2.symm

theorem renderBlockToMarkdown_error_inv (b : Value) (e : JsError)
    (h : renderBlockToMarkdown b = .error e) : e = .hostError := by
  rw [renderBlockToMarkdown.eq_def] at h
  split at h
  · injection h with h2
    exact h2.symm
  · split at h
    · exact Except.noConfusion h
    · exact Except.noConfusion h
    · exact Except.noConfusion h
    · exact Except.noConfusion h
    · exact Except.noConfusion h
    · cases hq : renderQuoteBlockToMarkdown b with
      | error e2 =>
          rw [hq] at h
          simp only [Except.map] at h
          injection h with h2
          rw [← h2]
          exact renderQuoteBlockToMarkdown_error_inv hq
      | ok s =>
          rw [hq] at h
          simp only [Except.map] at h
          exact Except.noConfusion h
    · exact Except.noConfusion h
    · exact Except.noConfusion h
    · exact Except.noConfusion h

theorem renderTextBlock_error_inv {H : HtmlHost} {b : Value} {e : JsError}
    (h : renderTextBlock H b = .error e) : e = .hostError := by
  rw [renderTextBlock] at h
  cases hm : H.markedParse (jsGet b "content") with
  | error u =>
      simp only [hm, Except.mapError] at h
      injection h with h2
      exact h2.symm
  | ok s =>
      simp only [hm, Except.mapError] at h
      exact Except.noConfusion h

theorem liItemHtml_error_inv (H : HtmlHost) :
    ∀ (item : Value) (e : JsError),
      ((H.markedParse (some item)).mapError (fun _ => JsError.hostError)).map
        (fun s => "<li>" ++ s ++ "</li>") = .error e → e = .hostError := by
  intro item e h
  cases hm : H.markedParse (some item) with
  | error u =>
      simp only [hm, Except.mapError, Except.map] at h
      injection h with h2
      exact h2.symm
  | ok s =>
      simp only [hm, Except.mapError, Except.map] at h
      exact Except.noConfusion h

theorem renderListBlock_error_inv {H : HtmlHost} {b : Value} {e : JsError}
    (h : renderListBlock H b = .error e) : e = .hostError := by
  rw [renderListBlock.eq_def] at h
  split at h
  · rename_i xs heq
    cases hit : xs.mapM (fun item =>
        ((H.markedParse (some item)).mapError (fun _ => JsError.hostError)).map
          (fun s => "<li>" ++ s ++ "</li>")) with
    | error e3 =>
        rw [hit, exceptError_bind] at h
        injection h with h2
        rw [← h2]
        exact mapM_error_of (liItemHtml_error_inv H) xs e3 hit
    | ok ys =>
        rw [hit, exceptOk_bind] at h
        exact Except.noConfusion h
  · exact Except.noConfusion h

theorem renderQuoteBlock_error_inv {H : HtmlHost} {b : Value} {e : JsError}
    (h : renderQuoteBlock H b = .error e) : e = .hostError := by
  rw [renderQuoteBlock] at h
  cases hm : H.markedParse (jsGet b "content") with
  | error u =>
      simp only [hm, Except.mapError, exceptError_bind] at h
      injection h with h2
      exact h2.symm
  | ok s =>
      simp only [hm, Except.mapError, exceptOk_bind] at h
      exact Except.noConfusion h

theorem renderBlock_error_inv (H : HtmlHost) (b : Value) (e : JsError)
    (h : renderBlock H b = .error e) : e = .hostError := by
  rw [renderBlock.eq_def] at h
  split at h
  · injection h with h2
    exact h2.symm
  · simp only [] at h
    split at h
    · cases ht : renderTextBlock H b with
      | error e2 =>
          rw [ht] at h
          simp only [Except.map] at h
          injection h with h2
          rw [← h2]
          exact renderTextBlock_error_inv ht
      | ok s =>
          rw [ht] at h
          simp only [Except.map] at h
          exact Except.noConfusion h
    · simp only [Except.map] at h
      exact Except.noConfusion h
    · simp only [Except.map] at h
      exact Except.noConfusion h
    · simp only [Except.map] at h
      exact Except.noConfusion h
    · cases hl : renderListBlock H b with
      | error e2 =>
          rw [hl] at h
          simp only [Except.map] at h
          injection h with h2
          rw [← h2]
          exact renderListBlock_error_inv hl
      | ok s =>
          rw [hl] at h
          simp only [Except.map] at h
          exact Except.noConfusion h
    · cases hq : renderQuoteBlock H b with
      | error e2 =>
          rw [hq] at h
          simp only [Except.map] at h
          injection h with h2
          rw [← h2]
          exact renderQuoteBlock_error_inv hq
      | ok s =>
          rw [hq] at h
          simp only [Except.map] at h
          exact Except.noConfusion h
    · simp only [Except.map] at h
      exact Except.noConfusion h
    · simp only [Except.map] at h
      exact Except.noConfusion h
    · simp only [Except.map] at h
      exact Except.noConfusion h

theorem renderBlockToMarkdown_unknown {ob : List (String × Value)} {T : String}
    (hty : getProp ob "type" = some (.vStr T)) (hT : T ∉ ALLOWED_TYPES) :
    renderBlockToMarkdown (.vObj ob) =
      .ok (some (.vStr ("[Unknown block type: " ++ T ++ "]"))) := by
  rw [renderBlockToMarkdown.eq_def]
  simp only [jsGet, hty]
  split <;>
    first
      | (rename_i heq
         injection heq with heq2
         injection heq2 with heq3
         rw [heq3] at hT
         exact absurd (by decide) hT)
      | simp [jsToStringOpt, jsToString]

theorem renderBlock_unknown {H : HtmlHost} {ob : List (String × Value)} {T : String}
    (hty : getProp ob "type" = some (.vStr T)) (hT : T ∉ ALLOWED_TYPES) :
    renderBlock H (.vObj ob) =
      .ok ("<div class=\"blockdoc-block blockdoc-" ++ T ++ "\" data-block-id=\""
        ++ jsToStringOpt (getProp ob "id") ++ "\" data-block-type=\"" ++ T ++ "\">"
        ++ ("<p>Unknown block type: " ++ T ++ "</p>") ++ "</div>") := by
  rw [renderBlock.eq_def]
  simp only [jsGet, hty]
  split <;>
    first
      | (rename_i heq
         injection heq with heq2
         injection heq2 with heq3
         rw [heq3] at hT
         exact absurd (by decide) hT)
      | simp [jsToStringOpt, jsToString, Except.map]

theorem articleBlocks_some {a : Value} {xs : List Value}
    (ht : truthy a = true) (hb : jsGet a "blocks" = some (.vArr xs)) :
    articleBlocks (some a) = some (a, xs) := by
  rw [articleBlocks, if_neg (by simp [ht]), hb]

theorem articleBlocks_none_iff (article : Option Value) :
    articleBlocks article = none ↔
      ¬ ∃ a xs, article = some a ∧ truthy a = true ∧ jsGet a "blocks" = some (.vArr xs) := by
  cases article with
  | none =>
      simp only [articleBlocks]
      simp
  | some a =>
      constructor
      · rintro h ⟨a2, xs, heq, ht, hb⟩
        injection heq with heq2
        rw [← heq2] at ht hb
        rw [articleBlocks_some ht hb] at h
        exact Option.noConfusion h
      · intro h
        rw [articleBlocks]
        by_cases ht : truthy a = true
        · rw [if_neg (by simp [ht])]
          cases hb : jsGet a "blocks" with
          | none => rfl
          | some v =>
              cases v with
              | vArr xs => exact absurd ⟨a, xs, rfl, ht, hb⟩ h
              | vStr s => rfl
              | vNum q => rfl
              | vBool b2 => rfl
              | vNull => rfl
              | vObj fs => rfl
        · rw [if_pos (by simpa using ht)]

/-- C7: both renderers raise the invalid-article-structure error exactly
when the article argument is absent (or falsy) or its `blocks` property
is not an array; and on a structurally valid article, a block whose
`type` string is not one of the eight known kinds does not abort the
render: the whole render succeeds, emitting the Markdown placeholder
`[Unknown block type: T]` (resp. the wrapped HTML paragraph
`<p>Unknown block type: T</p>`) for that block, while every other block
(assumed to render normally, i.e. with an `ok` per-block result)
contributes exactly its normal rendering. -/
theorem renderers_invalid_structure_and_unknown_placeholder :
    (∀ (dateFn : Value → String) (article : Option Value),
      renderToMarkdown dateFn article = .error .invalidArticleStructure ↔
        ¬ ∃ a xs, article = some a ∧ truthy a = true
          ∧ jsGet a "blocks" = some (.vArr xs))
    ∧ (∀ (H : HtmlHost) (article : Option Value),
      renderToHTML H article = .error .invalidArticleStructure ↔
        ¬ ∃ a xs, article = some a ∧ truthy a = true
          ∧ jsGet a "blocks" = some (.vArr xs))
    ∧ (∀ (dateFn : Value → String) (o ob : List (String × Value))
        (pre post : List Value) (T : String) (ms1 ms2 : List (Option Value)),
        getProp o "blocks" = some (.vArr (pre ++ .vObj ob :: post)) →
        getProp ob "type" = some (.vStr T) →
        T ∉ ALLOWED_TYPES →
        pre.mapM renderBlockToMarkdown = .ok ms1 →
        post.mapM renderBlockToMarkdown = .ok ms2 →
        renderToMarkdown dateFn (some (.vObj o)) =
          .ok (mdAssemble dateFn (.vObj o)
            (ms1 ++ some (.vStr ("[Unknown block type: " ++ T ++ "]")) :: ms2)))
    ∧ (∀ (H : HtmlHost) (o ob : List (String × Value))
        (pre post : List Value) (T : String) (hs1 hs2 : List String),
        getProp o "blocks" = some (.vArr (pre ++ .vObj ob :: post)) →
        getProp ob "type" = some (.vStr T) →
        T ∉ ALLOWED_TYPES →
        pre.mapM (renderBlock H) = .ok hs1 →
        post.mapM (renderBlock H) = .ok hs2 →
        renderToHTML H (some (.vObj o)) =
          .ok (htmlAssemble (.vObj o)
            (hs1 ++ ("<div class=\"blockdoc-block blockdoc-" ++ T ++ "\" data-block-id=\""
              ++ jsToStringOpt (getProp ob "id") ++ "\" data-block-type=\"" ++ T ++ "\">"
              ++ ("<p>Unknown block type: " ++ T ++ "</p>") ++ "</div>") :: hs2))) := by
  refine ⟨?_, ?_, ?_, ?_⟩
  · intro dateFn article
    constructor
    · intro h
      rw [← articleBlocks_none_iff]
      cases habs : articleBlocks article with
      | none => rfl
      | some p =>
          obtain ⟨a, xs⟩ := p
          rw [renderToMarkdown.eq_def] at h
          simp only [habs] at h
          exfalso
          cases hm : xs.mapM renderBlockToMarkdown with
          | error e =>
              rw [hm, exceptError_bind] at h
              injection h with h2
              have h3 := mapM_error_of renderBlockToMarkdown_error_inv xs e hm
              rw [h3] at h2
              exact JsError.noConfusion h2
          | ok outs =>
              rw [hm, exceptOk_bind] at h
              exact Except.noConfusion h
    · intro h
      rw [renderToMarkdown.eq_def, (articleBlocks_none_iff article).mpr h]
  · intro H article
    constructor
    · intro h
      rw [← articleBlocks_none_iff]
      cases habs : articleBlocks article with
      | none => rfl
      | some p =>
          obtain ⟨a, xs⟩ := p
          rw [renderToHTML.eq_def] at h
          simp only [habs] at h
          exfalso
          cases hm : xs.mapM (renderBlock H) with
          | error e =>
              rw [hm, exceptError_bind] at h
              injection h with h2
              have h3 := mapM_error_of (renderBlock_error_inv H) xs e hm
              rw [h3] at h2
              exact JsError.noConfusion h2
          | ok outs =>
              rw [hm, exceptOk_bind] at h
              exact Except.noConfusion h
    · intro h
      rw [renderToHTML.eq_def, (articleBlocks_none_iff article).mpr h]
  · intro dateFn o ob pre post T ms1 ms2 hblocks hty hT h1 h2
    have habs : articleBlocks (some (.vObj o)) = some (.vObj o, pre ++ .vObj ob :: post) :=
      articleBlocks_some rfl (by simp [jsGet, hblocks])
    rw [renderToMarkdown.eq_def]
    simp only [habs]
    rw [mapM_append_ok h1 (renderBlockToMarkdown_unknown hty hT) h2, exceptOk_bind]
  · intro H o ob pre post T hs1 hs2 hblocks hty hT h1 h2
    have habs : articleBlocks (some (.vObj o)) = some (.vObj o, pre ++ .vObj ob :: post) :=
      articleBlocks_some rfl (by simp [jsGet, hblocks])
    rw [renderToHTML.eq_def]
    simp only [habs]
    rw [mapM_append_ok h1 (renderBlock_unknown hty hT) h2, exceptOk_bind]

/-- C7 witness: the characterization applied at concrete inputs: an
absent article raises the invalid-structure error in both renderers, an
article whose blocks value is a string raises it too, and a valid
one-block article whose block has the unknown type `wat` renders with
the placeholder in both renderers. -/
theorem renderers_invalid_structure_witness :
    renderToMarkdown (fun _ => "") none = .error .invalidArticleStructure
    ∧ renderToHTML ⟨fun _ => .error (), fun _ => false, fun _ _ => .error (),
        fun _ => .error (), fun _ => none⟩ none = .error .invalidArticleStructure
    ∧ renderToMarkdown (fun _ => "")
        (some (.vObj [("title", .vStr "T"), ("blocks", .vStr "nope")])) =
        .error .invalidArticleStructure
    ∧ renderToMarkdown (fun _ => "")
        (some (.vObj [("title", .vStr "T"),
          ("blocks", .vArr [.vObj [("id", .vStr "x"), ("type", .vStr "wat")]])])) =
        .ok (mdAssemble (fun _ => "")
          (.vObj [("title", .vStr "T"),
            ("blocks", .vArr [.vObj [("id", .vStr "x"), ("type", .vStr "wat")]])])
          ([] ++ some (.vStr ("[Unknown block type: " ++ "wat" ++ "]")) :: [])) := by
  refine ⟨?_, ?_, ?_, ?_⟩
  · exact (renderers_invalid_structure_and_unknown_placeholder.1 (fun _ => "") none).mpr
      (by rintro ⟨a, xs, heq, -, -⟩; exact Option.noConfusion heq)
  · exact (renderers_invalid_structure_and_unknown_placeholder.2.1 _ none).mpr
      (by rintro ⟨a, xs, heq, -, -⟩; exact Option.noConfusion heq)
  · exact (renderers_invalid_structure_and_unknown_placeholder.1 (fun _ => "") _).mpr
      (by
        rintro ⟨a, xs, heq, -, hb⟩
        injection heq with heq2
        rw [← heq2] at hb
        simp [jsGet, getProp] at hb)
  · exact renderers_invalid_structure_and_unknown_placeholder.2.2.1 (fun _ => "")
      [("title", .vStr "T"),
        ("blocks", .vArr [.vObj [("id", .vStr "x"), ("type", .vStr "wat")]])]
      [("id", .vStr "x"), ("type", .vStr "wat")] [] [] "wat" [] []
      rfl rfl (by decide) rfl rfl

/-- C2 witness: the characterization applied at the concrete inputs from
the specification: a protocol-relative url, a relative url, and a
`javascript:` url. -/
theorem sanitizeUrl_characterization_witness :
    sanitizeUrl "//example.com/x" = "https:" ++ "//example.com/x"
    ∧ sanitizeUrl "/a/b" = "/a/b"
    ∧ sanitizeUrl "javascript:alert(1)" = "" :=
  ⟨(sanitizeUrl_characterization "//example.com/x").2.2.1 (by decide) (by decide),
   (sanitizeUrl_characterization "/a/b").2.2.2.1 (by decide) (by decide) (by decide),
   (sanitizeUrl_characterization "javascript:alert(1)").2.2.2.2 (by decide) (by decide)
     (by decide)⟩

end BlockDoc
